import Mathlib

/-!
# Configuration Store and Activation Engine of the config switcher

A shallow embedding of the non-GUI part of `main.go`: the profile collection
(`ConfigManager` with `Load`, `Save`, `AddConfig`, `EditConfig`, `SwitchConfig`,
`DeleteConfig`, `GetActiveConfig`) and the activation engine (`ApplyConfig`,
`applyConfigWindows`, `applyConfigUnix`).

The Go methods mutate the manager and the host; here each one is a function
from the manager and a `World` (the two files, the persistent environment
variables, the outcome every system call is going to have, and the log of
system calls made so far) to the manager, the world and the returned `error`.

A profile holds Lean strings, which are the Go strings that are valid UTF-8;
the section on Go strings gives the store on arbitrary byte strings.
-/

namespace ConfigSwitcher

/-! ## Data model -/

/-- The Go struct `Config`: one saved profile. -/
structure Config where
  Name : String
  BaseURL : String
  Token : String
  IsActive : Bool
  deriving DecidableEq

/-- A JSON text, given as the value tree its tokens denote. A number is kept as
the bit pattern of the float64 that `encoding/json` decodes it to, and is
`none` when the literal is outside the range of float64, in which case decoding
it is an error. An object is the list of its members in the order of the
text; a name may occur more than once. -/
inductive JSON where
  | null
  | bool (b : Bool)
  | num (bits : Option Nat)
  | str (s : String)
  | arr (xs : List JSON)
  | obj (members : List (String × JSON))

/-- The bytes of a file: either a JSON text, or bytes that are not one (on
which `json.Unmarshal` reports an error before it stores anything). -/
inductive FileData where
  | malformed (raw : String)
  | json (v : JSON)

/-- A Go `error` value. `msg` is `fmt.Errorf` of a fixed text, `wrapped` is
`fmt.Errorf("text: %w", cause)`, `os` is an error of the operating system and
`unmarshal` an error of `json.Unmarshal`. -/
inductive Error where
  | msg (text : String)
  | wrapped (text : String) (cause : Error)
  | os (code : Nat)
  | unmarshal
  deriving DecidableEq

/-- A system call made by the program, as it is recorded in the log. -/
inductive Event where
  | writeConfigs (data : FileData)
  | userHomeDir
  | mkdirAll
  | readSettings
  | writeSettings (data : FileData)
  | setx (name value : String)

/-- What `os.WriteFile` is going to do: succeed, or fail with an error and
leave the file in the state `left` (untouched, truncated, or absent). -/
inductive WriteOutcome where
  | ok
  | fails (e : Error) (left : Option FileData)

/-- The host as the program sees it.

* `goos` is `runtime.GOOS`.
* `configsFile` is the content of `configs.json` (the manager's `configPath`),
  `settingsFile` that of `~/.claude/settings.json`; the two paths are distinct.
  `none` is a missing file.
* `environment` are the persistent user environment variables `setx` writes,
  as a key-sorted list.
* `homeDirResult`, `mkdirResult`, `readSettingsResult`, `writeConfigsResult`,
  `writeSettingsResult` and `setxResult` say how the corresponding system call
  is going to end. `readSettingsResult` is the error `os.ReadFile` reports on a
  settings file that exists but cannot be read.
* `log` lists the system calls made, oldest first. -/
structure World where
  goos : String
  configsFile : Option FileData
  settingsFile : Option FileData
  environment : List (String × String)
  homeDirResult : Option Error
  mkdirResult : Option Error
  readSettingsResult : Option Error
  writeConfigsResult : WriteOutcome
  writeSettingsResult : WriteOutcome
  setxResult : String → Option Error
  log : List Event

/-- Record a system call. -/
def World.record (w : World) (e : Event) : World :=
  { w with log := w.log ++ [e] }

/-- The Go struct `ConfigManager`. -/
structure ConfigManager where
  Configs : List Config
  configPath : String
  deriving DecidableEq

/-- The Go struct `ClaudeSettings`: the only field is `Env`, a
`map[string]interface{}`; `none` is the nil map, and a map is the key-sorted
list of its entries. -/
structure ClaudeSettings where
  Env : Option (List (String × JSON))

/-- What a method leaves behind: the manager, the host, and the `error` it
returns (`none` is the `nil` of Go). -/
structure Outcome where
  cm : ConfigManager
  world : World
  err : Option Error

/-! ## Go maps and `encoding/json` -/

/-- The order in which `encoding/json` writes the keys of a map: by the
characters of the key. -/
def keyLess (a b : String) : Prop := a.data < b.data

instance keyLessDecidable (a b : String) : Decidable (keyLess a b) := by
  unfold keyLess; infer_instance

/-- The Go statement `m[k] = v` on a map kept as a key-sorted list. -/
def mapSet {V : Type} (k : String) (v : V) : List (String × V) → List (String × V)
  | [] => [(k, v)]
  | (k', v') :: rest =>
    if keyLess k k' then (k, v) :: (k', v') :: rest
    else if k = k' then (k, v) :: rest
    else (k', v') :: mapSet k v rest

/-- The Go expression `m[k]` with its presence flag. -/
def mapGet {V : Type} (k : String) : List (String × V) → Option V
  | [] => none
  | (k', v') :: rest => if k = k' then some v' else mapGet k rest

/-- Storing the members of a JSON object into a Go map, one after the other. -/
def mapSetAll {V : Type} (members : List (String × V)) (m : List (String × V)) :
    List (String × V) :=
  members.foldl (fun acc kv => mapSet kv.1 kv.2 acc) m

/-- The value of the member called `k` in a JSON object: the last one of
that name. -/
def member? (k : String) : List (String × JSON) → Option JSON
  | [] => none
  | (k', v) :: rest =>
    match member? k rest with
    | some r => some r
    | none => if k = k' then some v else none

/-- The name of the environment variable and `env` key for the token. -/
def authTokenKey : String := "ANTHROPIC_AUTH_TOKEN"

/-- The name of the environment variable and `env` key for the base URL. -/
def baseURLKey : String := "ANTHROPIC_BASE_URL"

/-- One element of `json.MarshalIndent(cm.Configs, ...)`: the four fields under
their JSON tags, in the order of the struct. -/
def marshalConfig (c : Config) : JSON :=
  .obj [("name", .str c.Name), ("base_url", .str c.BaseURL), ("token", .str c.Token),
    ("is_active", .bool c.IsActive)]

/-- The call `json.MarshalIndent(cm.Configs, "", "  ")`. Strings and booleans
always encode, so the result is never an error. -/
def marshalConfigs (cs : List Config) : Except Error FileData :=
  .ok (.json (.arr (cs.map marshalConfig)))

/-- Decoding the member `k` of an object into a Go string field that starts
empty: a string is stored, `null` and a missing member leave the field alone,
anything else is a type error. -/
def stringField (k : String) (ms : List (String × JSON)) : String × Option Error :=
  match member? k ms with
  | none => ("", none)
  | some (.str s) => (s, none)
  | some .null => ("", none)
  | some _ => ("", some .unmarshal)

/-- Decoding the member `k` of an object into a Go bool field that starts
false. -/
def boolField (k : String) (ms : List (String × JSON)) : Bool × Option Error :=
  match member? k ms with
  | none => (false, none)
  | some (.bool b) => (b, none)
  | some .null => (false, none)
  | some _ => (false, some .unmarshal)

/-- The first of two errors. -/
def firstError (a b : Option Error) : Option Error :=
  match a with
  | some e => some e
  | none => b

/-- Decoding one array element into a fresh `Config`. A type error does not
stop the decoder: it goes on and reports the error at the end. -/
def unmarshalConfig : JSON → Config × Option Error
  | .obj ms =>
    let n := stringField "name" ms
    let u := stringField "base_url" ms
    let t := stringField "token" ms
    let a := boolField "is_active" ms
    ({ Name := n.1, BaseURL := u.1, Token := t.1, IsActive := a.1 },
      firstError n.2 (firstError u.2 (firstError t.2 a.2)))
  | .null => ({ Name := "", BaseURL := "", Token := "", IsActive := false }, none)
  | _ => ({ Name := "", BaseURL := "", Token := "", IsActive := false }, some .unmarshal)

/-- Decoding the elements of a JSON array into a slice that starts empty. -/
def unmarshalConfigList : List JSON → List Config × Option Error
  | [] => ([], none)
  | x :: xs =>
    let c := unmarshalConfig x
    let r := unmarshalConfigList xs
    (c.1 :: r.1, firstError c.2 r.2)

/-- The call `json.Unmarshal(data, &cm.Configs)` on a slice that is empty, as
it is in `NewConfigManager`, the only caller of `Load`. -/
def unmarshalConfigs : FileData → List Config × Option Error
  | .malformed _ => ([], some .unmarshal)
  | .json (.arr xs) => unmarshalConfigList xs
  | .json .null => ([], none)
  | .json _ => ([], some .unmarshal)

mutual
/-- Whether decoding the value into an `interface{}` is an error: it holds a
number outside the range of float64. -/
def outOfRange : JSON → Bool
  | .num none => true
  | .arr xs => outOfRangeList xs
  | .obj ms => outOfRangeMembers ms
  | _ => false
/-- Whether one of the values is `outOfRange`. -/
def outOfRangeList : List JSON → Bool
  | [] => false
  | x :: xs => outOfRange x || outOfRangeList xs
/-- Whether the value of one of the members is `outOfRange`. -/
def outOfRangeMembers : List (String × JSON) → Bool
  | [] => false
  | (_, v) :: ms => outOfRange v || outOfRangeMembers ms
end

/-- The name of a member with its letters A to Z in lower case. -/
def foldName (k : String) : List Char := k.data.map Char.toLower

/-- Whether the decoder sends the member called `k` to the field `Env`, whose
tag is `env`: the name is `env`, or is `env` up to the case of its letters. -/
def fieldMatches (k : String) : Bool := foldName k == ['e', 'n', 'v']

/-- The decoder at one member of the top-level object. A member that goes to
`Env` and is an object is stored entry by entry into the map of the field
(which is made when nil, and otherwise kept with the entries it has); `null`
makes the field nil; any other value is a type error. An error does not stop
the decoder: it is remembered, the first one is reported at the end. When an
error is reported the caller throws the map away, so the entries are stored
here as they stand in the text. -/
def decodeMember (st : ClaudeSettings × Option Error) (kv : String × JSON) :
    ClaudeSettings × Option Error :=
  if fieldMatches kv.1 then
    match kv.2 with
    | .null => ({ Env := none }, st.2)
    | .obj es =>
      ({ Env := some (mapSetAll es (st.1.Env.getD [])) },
        firstError st.2 (if outOfRangeMembers es then some .unmarshal else none))
    | _ => (st.1, firstError st.2 (some .unmarshal))
  else st

/-- The call `json.Unmarshal(data, &settings)`: bytes that are not a JSON text
are an error and store nothing, `null` stores nothing, an object is decoded
member by member in the order of the text, and any other document is a type
error. -/
def unmarshalSettings (data : FileData) (settings : ClaudeSettings) :
    ClaudeSettings × Option Error :=
  match data with
  | .malformed _ => (settings, some .unmarshal)
  | .json .null => (settings, none)
  | .json (.obj ms) => ms.foldl decodeMember (settings, none)
  | .json _ => (settings, some .unmarshal)

/-- The call `json.MarshalIndent(settings, "", "  ")`: an object with the one
member `env`, the keys of the map in sorted order. The values all come from the
decoder or are strings, so the result is never an error. -/
def marshalSettings (settings : ClaudeSettings) : Except Error FileData :=
  match settings.Env with
  | none => .ok (.json (.obj [("env", .null)]))
  | some m => .ok (.json (.obj [("env", .obj m)]))

/-! ## Activation Engine -/

/-- The Go function `applyConfigWindows`: two calls of `setx`, the first
failure is returned. -/
def applyConfigWindows (config : Config) (w : World) : World × Option Error :=
  let w := w.record (.setx authTokenKey config.Token)
  match w.setxResult authTokenKey with
  | some e => (w, some (.wrapped "failed to set ANTHROPIC_AUTH_TOKEN" e))
  | none =>
    let w := { w with environment := mapSet authTokenKey config.Token w.environment }
    let w := w.record (.setx baseURLKey config.BaseURL)
    match w.setxResult baseURLKey with
    | some e => (w, some (.wrapped "failed to set ANTHROPIC_BASE_URL" e))
    | none =>
      ({ w with environment := mapSet baseURLKey config.BaseURL w.environment }, none)

/-- The call `os.ReadFile(settingsPath)`: a missing file is the error `os 2`
(ENOENT), a file that exists may still fail to be read. -/
def readFileSettings (w : World) : Except Error FileData :=
  match w.settingsFile with
  | none => .error (.os 2)
  | some data =>
    match w.readSettingsResult with
    | some e => .error e
    | none => .ok data

/-- The settings the Go function `applyConfigUnix` holds after reading the
file: the read-and-parse step and the nil check. -/
def readSettings (w : World) : ClaudeSettings :=
  let settings : ClaudeSettings := { Env := some [] }
  let settings :=
    match readFileSettings w with
    | .ok data =>
      match unmarshalSettings data settings with
      | (_, some _) => ({ Env := some [] } : ClaudeSettings)
      | (s, none) => s
    | .error _ => settings
  match settings.Env with
  | none => { Env := some [] }
  | some _ => settings

/-- The two assignments `settings.Env[...] = ...` of `applyConfigUnix`. -/
def updateSettings (config : Config) (settings : ClaudeSettings) : ClaudeSettings :=
  { Env := some (mapSet baseURLKey (.str config.BaseURL)
      (mapSet authTokenKey (.str config.Token) (settings.Env.getD []))) }

/-- The Go function `applyConfigUnix`. -/
def applyConfigUnix (config : Config) (w : World) : World × Option Error :=
  let w := w.record .userHomeDir
  match w.homeDirResult with
  | some e => (w, some (.wrapped "failed to get home directory" e))
  | none =>
    let w := w.record .mkdirAll
    match w.mkdirResult with
    | some e => (w, some (.wrapped "failed to create .claude directory" e))
    | none =>
      let w := w.record .readSettings
      let settings := updateSettings config (readSettings w)
      match marshalSettings settings with
      | .error e => (w, some (.wrapped "failed to marshal settings" e))
      | .ok data =>
        let w := w.record (.writeSettings data)
        match w.writeSettingsResult with
        | .fails e left =>
          ({ w with settingsFile := left }, some (.wrapped "failed to write settings file" e))
        | .ok => ({ w with settingsFile := some data }, none)

/-- The Go function `ApplyConfig`; the argument is a pointer, `none` is nil. -/
def ApplyConfig (config : Option Config) (w : World) : World × Option Error :=
  match config with
  | none => (w, some (.msg "config is nil"))
  | some c => if w.goos = "windows" then applyConfigWindows c w else applyConfigUnix c w

/-! ## Configuration Store -/

/-- The method `Save`. -/
def Save (cm : ConfigManager) (w : World) : World × Option Error :=
  match marshalConfigs cm.Configs with
  | .error e => (w, some e)
  | .ok data =>
    let w := w.record (.writeConfigs data)
    match w.writeConfigsResult with
    | .fails e left => ({ w with configsFile := left }, some e)
    | .ok => ({ w with configsFile := some data }, none)

/-- The method `Load`, on a manager whose collection is empty, as it is in
`NewConfigManager`, its only caller. A missing file is the error `os 2`
(ENOENT). -/
def Load (cm : ConfigManager) (w : World) : ConfigManager × Option Error :=
  match w.configsFile with
  | none => (cm, some (.os 2))
  | some data =>
    let r := unmarshalConfigs data
    ({ cm with Configs := r.1 }, r.2)

/-- The method `AddConfig`. -/
def AddConfig (cm : ConfigManager) (w : World) (name baseURL token : String) : Outcome :=
  let config : Config := { Name := name, BaseURL := baseURL, Token := token, IsActive := false }
  let cm := { cm with Configs := cm.Configs ++ [config] }
  let r := Save cm w
  { cm := cm, world := r.1, err := r.2 }

/-- The method `EditConfig`. -/
def EditConfig (cm : ConfigManager) (w : World) (index : Int) (name baseURL token : String) :
    Outcome :=
  if index < 0 ∨ index ≥ cm.Configs.length then
    { cm := cm, world := w, err := some (.msg "invalid config index") }
  else
    let i := index.toNat
    let edited := cm.Configs.modify
      (fun c => { c with Name := name, BaseURL := baseURL, Token := token }) i
    let cm := { cm with Configs := edited }
    match Save cm w with
    | (w, some e) => { cm := cm, world := w, err := some e }
    | (w, none) =>
      if (cm.Configs[i]?.map Config.IsActive) = some true then
        let r := ApplyConfig cm.Configs[i]? w
        { cm := cm, world := r.1, err := r.2 }
      else
        { cm := cm, world := w, err := none }

/-- The method `SwitchConfig`. -/
def SwitchConfig (cm : ConfigManager) (w : World) (index : Int) : Outcome :=
  if index < 0 ∨ index ≥ cm.Configs.length then
    { cm := cm, world := w, err := some (.msg "invalid config index") }
  else
    let i := index.toNat
    let cleared := cm.Configs.map (fun c => { c with IsActive := false })
    let cm := { cm with Configs := cleared.modify (fun c => { c with IsActive := true }) i }
    match Save cm w with
    | (w, some e) => { cm := cm, world := w, err := some e }
    | (w, none) =>
      let r := ApplyConfig cm.Configs[i]? w
      { cm := cm, world := r.1, err := r.2 }

/-- The method `DeleteConfig`. -/
def DeleteConfig (cm : ConfigManager) (w : World) (index : Int) : Outcome :=
  if index < 0 ∨ index ≥ cm.Configs.length then
    { cm := cm, world := w, err := some (.msg "invalid config index") }
  else
    let i := index.toNat
    let cm := { cm with Configs := cm.Configs.take i ++ cm.Configs.drop (i + 1) }
    let r := Save cm w
    { cm := cm, world := r.1, err := r.2 }

/-- The method `GetActiveConfig`. -/
def GetActiveConfig (cm : ConfigManager) : Option Config :=
  cm.Configs.find? (fun c => c.IsActive)

/-! ## Vocabulary of the properties -/

/-- The number of profiles whose `IsActive` is true. -/
def activeCount (cs : List Config) : Nat := cs.countP (fun c => c.IsActive)


/-- The collection `SwitchConfig` leaves for a valid position `i`: every flag
cleared, then the flag at `i` set. -/
def switched (cs : List Config) (i : Nat) : List Config :=
  (cs.map (fun c => { c with IsActive := false })).modify (fun c => { c with IsActive := true }) i

/-- A run of `SwitchConfig` calls, each one in a host of its own. -/
def switchAll (cm : ConfigManager) : List (World × Int) → ConfigManager
  | [] => cm
  | (w, index) :: rest => switchAll (SwitchConfig cm w index).cm rest


/-- The `env` mapping of a settings file read by name: the members of the
object that the top-level member `env` holds, and no member when the file is
missing, is not a JSON text, is not an object, or has no member `env` that is
an object. The mapping is given by its members and read with `member?`. -/
def existingEnv : Option FileData → List (String × JSON)
  | none => []
  | some (.malformed _) => []
  | some (.json (.obj ms)) =>
    match member? "env" ms with
    | some (.obj es) => es
    | _ => []
  | some (.json _) => []

/-- The configuration target: the settings file and the persistent environment
variables. -/
def target (w : World) : Option FileData × List (String × String) :=
  (w.settingsFile, w.environment)

/-- The values of the top-level members that are called `env` up to the case
of the letters, in the order of the text. -/
def envValues (ms : List (String × JSON)) : List JSON :=
  (ms.filter (fun kv => fieldMatches kv.1)).map (fun kv => kv.2)

/-- Whether a value decodes into the field `Env`: it is `null`, or an object
none of whose numbers is outside the range of float64. -/
def envParses : JSON → Bool
  | .null => true
  | .obj es => !outOfRangeMembers es
  | _ => false

/-- The entries gathered from a run of values: the entries of an object are
added after those gathered so far, `null` drops them all. -/
def gatherFrom (acc : List (String × JSON)) (vs : List JSON) : List (String × JSON) :=
  vs.foldl (fun acc v =>
    match v with
    | .null => []
    | .obj es => acc ++ es
    | _ => acc) acc

/-- The mapping `B` of the merge property as the code has it: the entries of
every top-level member called `env` up to letter case, in the order of the
text, counted from the last such member that is `null`; and no entry when the
file is missing or cannot be read, is not a JSON text, is not an object, or
has such a member that does not decode. The mapping is given by its entries
and read with `member?`, so that a later entry overrides an earlier one. -/
def decodedEnv (w : World) : List (String × JSON) :=
  match readFileSettings w with
  | .error _ => []
  | .ok (.malformed _) => []
  | .ok (.json (.obj ms)) =>
    if (envValues ms).all envParses then gatherFrom [] (envValues ms) else []
  | .ok (.json _) => []

/-- The environment map `applyConfigUnix` writes when nothing fails. -/
def writtenEnv (config : Config) (w : World) : List (String × JSON) :=
  mapSet baseURLKey (.str config.BaseURL)
    (mapSet authTokenKey (.str config.Token) (mapSetAll (decodedEnv w) []))

/-- A host on which every system call succeeds, not Windows, whose settings
file holds a top-level key `model` next to `env`. -/
def sampleWorld : World :=
  { goos := "linux"
    configsFile := none
    settingsFile := some (.json (.obj [("model", .str "opus"), ("env", .obj [("K", .str "V")])]))
    environment := []
    homeDirResult := none
    mkdirResult := none
    readSettingsResult := none
    writeConfigsResult := .ok
    writeSettingsResult := .ok
    setxResult := fun _ => none
    log := [] }

/-- A host like `sampleWorld` whose settings file spells the key `ENV`. -/
def upperCaseWorld : World :=
  { sampleWorld with settingsFile := some (.json (.obj [("ENV", .obj [("K", .str "V")])])) }

/-- A profile used in the examples. -/
def sampleConfig : Config :=
  { Name := "prod", BaseURL := "https://api.example.com", Token := "tok123", IsActive := true }

/-- The host after an `applyConfigUnix` on which nothing failed. -/
def unixDone (config : Config) (w : World) : World :=
  { w with
    log := w.log ++ [.userHomeDir] ++ [.mkdirAll] ++ [.readSettings] ++
      [.writeSettings (.json (.obj [("env", .obj (writtenEnv config w))]))]
    settingsFile := some (.json (.obj [("env", .obj (writtenEnv config w))])) }

/-- The host after an `applyConfigWindows` on which nothing failed. -/
def windowsDone (config : Config) (w : World) : World :=
  { w with
    log := w.log ++ [.setx authTokenKey config.Token] ++ [.setx baseURLKey config.BaseURL]
    environment :=
      mapSet baseURLKey config.BaseURL (mapSet authTokenKey config.Token w.environment) }

/-- The bytes `Save` writes for a collection. -/
def savedData (cs : List Config) : FileData :=
  .json (.arr (cs.map marshalConfig))

/-- The host after a `Save` of the collection `cs` on which nothing failed. -/
def afterSave (cs : List Config) (w : World) : World :=
  { w with log := w.log ++ [.writeConfigs (savedData cs)], configsFile := some (savedData cs) }

/-- The collection `EditConfig` leaves for a valid position `i`. -/
def edited (cs : List Config) (i : Nat) (name baseURL token : String) : List Config :=
  cs.modify (fun c => { c with Name := name, BaseURL := baseURL, Token := token }) i

/-- The value the configuration target holds for the key `k`: the persistent
environment variable on Windows, the entry of the `env` mapping of the settings
file elsewhere. -/
def targetValue (w : World) (k : String) : Option JSON :=
  if w.goos = "windows" then (mapGet k w.environment).map JSON.str
  else member? k (existingEnv w.settingsFile)

/-- A call of one of the four mutating methods of the store. -/
inductive Op where
  | add (name baseURL token : String)
  | edit (index : Int) (name baseURL token : String)
  | switch (index : Int)
  | delete (index : Int)

/-- Running one call. -/
def Op.run (cm : ConfigManager) (w : World) : Op → Outcome
  | .add name baseURL token => AddConfig cm w name baseURL token
  | .edit index name baseURL token => EditConfig cm w index name baseURL token
  | .switch index => SwitchConfig cm w index
  | .delete index => DeleteConfig cm w index

/-- A run of calls, each one in a host of its own (so that the files and the
outcome of the system calls may differ from call to call). -/
def runOps (cm : ConfigManager) : List (World × Op) → ConfigManager
  | [] => cm
  | (w, op) :: rest => runOps (op.run cm w).cm rest

/-- The example profile, not active. -/
def inactiveSample : Config := { sampleConfig with IsActive := false }

/-- A manager holding the example profile twice, the first one active. -/
def sampleManager : ConfigManager :=
  { Configs := [sampleConfig, inactiveSample], configPath := "configs.json" }

/-- A host like `sampleWorld` on which `configs.json` cannot be written
(EACCES) and is left missing. -/
def readOnlyWorld : World :=
  { sampleWorld with writeConfigsResult := .fails (.os 13) none }

/-- A Go map as it is kept here: the keys strictly increasing. -/
def KeySorted {V : Type} (m : List (String × V)) : Prop :=
  m.Pairwise (fun a b => keyLess a.1 b.1)

/-! ## The store on Go strings

The strings of a profile are Go strings: sequences of bytes that need not be
valid UTF-8. Above, a profile holds strings that are valid UTF-8, which are
the Lean strings. Here `Config`, `Save`, `Load` and `AddConfig` are given once
more on arbitrary Go strings, with the coercion `encoding/json` applies when it
writes a string. -/

namespace Bytes

/-- One step of reading a Go string the way the encoder does
(`utf8.DecodeRuneInString`): a well-formed encoded character, or one byte that
is part of none. -/
inductive Piece where
  | char (c : Char)
  | stray (byte : Nat)
  deriving DecidableEq

/-- A Go string, as the pieces it is read in. -/
abbrev GoString : Type := List Piece

/-- Whether a Go string is valid UTF-8: no stray byte. -/
def validUTF8 (s : GoString) : Bool :=
  s.all (fun p => match p with
    | .char _ => true
    | .stray _ => false)

/-- The JSON string the encoder writes for a Go string: the string coerced to
valid UTF-8, every invalid byte replaced by the replacement character U+FFFD. -/
def jsonString (s : GoString) : String :=
  String.mk (s.map (fun p => match p with
    | .char c => c
    | .stray _ => Char.ofNat 0xFFFD))

/-- The Go string the decoder stores for a JSON string. -/
def goString (s : String) : GoString := s.data.map Piece.char

/-- The Go struct `Config`, its strings as Go has them. -/
structure Config where
  Name : GoString
  BaseURL : GoString
  Token : GoString
  IsActive : Bool
  deriving DecidableEq

/-- The Go struct `ConfigManager`. -/
structure ConfigManager where
  Configs : List Config
  configPath : String
  deriving DecidableEq

/-- What a method leaves behind. -/
structure Outcome where
  cm : ConfigManager
  world : World
  err : Option Error

/-- One element of `json.MarshalIndent(cm.Configs, ...)`. -/
def marshalConfig (c : Config) : JSON :=
  .obj [("name", .str (jsonString c.Name)), ("base_url", .str (jsonString c.BaseURL)),
    ("token", .str (jsonString c.Token)), ("is_active", .bool c.IsActive)]

/-- The call `json.MarshalIndent(cm.Configs, "", "  ")`. -/
def marshalConfigs (cs : List Config) : Except Error FileData :=
  .ok (.json (.arr (cs.map marshalConfig)))

/-- Decoding one array element into a fresh `Config`. -/
def unmarshalConfig : JSON → Config × Option Error
  | .obj ms =>
    let n := stringField "name" ms
    let u := stringField "base_url" ms
    let t := stringField "token" ms
    let a := boolField "is_active" ms
    ({ Name := goString n.1, BaseURL := goString u.1, Token := goString t.1, IsActive := a.1 },
      firstError n.2 (firstError u.2 (firstError t.2 a.2)))
  | .null => ({ Name := [], BaseURL := [], Token := [], IsActive := false }, none)
  | _ => ({ Name := [], BaseURL := [], Token := [], IsActive := false }, some .unmarshal)

/-- Decoding the elements of a JSON array into a slice that starts empty. -/
def unmarshalConfigList : List JSON → List Config × Option Error
  | [] => ([], none)
  | x :: xs =>
    let c := unmarshalConfig x
    let r := unmarshalConfigList xs
    (c.1 :: r.1, firstError c.2 r.2)

/-- The call `json.Unmarshal(data, &cm.Configs)` on a slice that is empty. -/
def unmarshalConfigs : FileData → List Config × Option Error
  | .malformed _ => ([], some .unmarshal)
  | .json (.arr xs) => unmarshalConfigList xs
  | .json .null => ([], none)
  | .json _ => ([], some .unmarshal)

/-- The method `Save`. -/
def Save (cm : ConfigManager) (w : World) : World × Option Error :=
  match marshalConfigs cm.Configs with
  | .error e => (w, some e)
  | .ok data =>
    let w := w.record (.writeConfigs data)
    match w.writeConfigsResult with
    | .fails e left => ({ w with configsFile := left }, some e)
    | .ok => ({ w with configsFile := some data }, none)

/-- The method `Load`, on a manager whose collection is empty. -/
def Load (cm : ConfigManager) (w : World) : ConfigManager × Option Error :=
  match w.configsFile with
  | none => (cm, some (.os 2))
  | some data =>
    let r := unmarshalConfigs data
    ({ cm with Configs := r.1 }, r.2)

/-- The method `AddConfig`. -/
def AddConfig (cm : ConfigManager) (w : World) (name baseURL token : GoString) : Outcome :=
  let config : Config := { Name := name, BaseURL := baseURL, Token := token, IsActive := false }
  let cm := { cm with Configs := cm.Configs ++ [config] }
  let r := Save cm w
  { cm := cm, world := r.1, err := r.2 }

/-- Whether every string of a profile is valid UTF-8. -/
def Config.valid (c : Config) : Bool :=
  validUTF8 c.Name && validUTF8 c.BaseURL && validUTF8 c.Token

/-- The manager of a fresh install. -/
def emptyManager : ConfigManager := { Configs := [], configPath := "configs.json" }

/-- The Go string of the three bytes `a`, `0xff`, `b`: not valid UTF-8. -/
def strayName : GoString := [.char 'a', .stray 255, .char 'b']

/-- The Go string `a`, U+FFFD, `b`. -/
def replacedName : GoString := [.char 'a', .char (Char.ofNat 0xFFFD), .char 'b']

/-- The profile `AddConfig` makes of `strayName` and two empty strings. -/
def strayProfile : Config :=
  { Name := strayName, BaseURL := [], Token := [], IsActive := false }

/-- The profile `strayProfile` with its name coerced to valid UTF-8. -/
def coercedProfile : Config :=
  { Name := replacedName, BaseURL := [], Token := [], IsActive := false }

/-- A profile whose strings are valid UTF-8. -/
def validProfile : Config :=
  { Name := replacedName, BaseURL := replacedName, Token := replacedName, IsActive := false }

end Bytes

/-! ## In-memory effect of `SwitchConfig` -/

theorem activeCount_map_clear (cs : List Config) :
    activeCount (cs.map (fun c => { c with IsActive := false })) = 0 := by
  unfold activeCount
  rw [List.countP_eq_zero]
  intro a ha
  rw [List.mem_map] at ha
  obtain ⟨c, _, rfl⟩ := ha
  simp

theorem activeCount_switched (cs : List Config) (i : Nat) (h : i < cs.length) :
    activeCount (switched cs i) = 1 := by
  induction cs generalizing i with
  | nil => simp at h
  | cons c cs ih =>
    cases i with
    | zero =>
      have h0 := activeCount_map_clear cs
      unfold activeCount at h0
      simp [switched, activeCount, List.countP_cons, h0]
    | succ n =>
      have hn : n < cs.length := by simpa using h
      have := ih n hn
      unfold switched activeCount at this
      simp [switched, activeCount, List.countP_cons, this]

theorem switched_getElem? (cs : List Config) (i j : Nat) (c : Config)
    (hc : (switched cs i)[j]? = some c) : (c.IsActive = true ↔ j = i) := by
  unfold switched at hc
  rw [List.getElem?_modify, List.getElem?_map] at hc
  cases hj : cs[j]? with
  | none => simp [hj] at hc
  | some d =>
    simp only [hj, Option.map_some', Option.map_eq_map] at hc
    by_cases hij : i = j
    · simp [hij] at hc
      subst hc; simp [hij]
    · simp [hij] at hc
      subst hc
      simp; exact fun h => hij h.symm

theorem length_switched (cs : List Config) (i : Nat) : (switched cs i).length = cs.length := by
  simp [switched]

theorem SwitchConfig_cm_valid (cm : ConfigManager) (w : World) (index : Int)
    (h : ¬ (index < 0 ∨ index ≥ cm.Configs.length)) :
    (SwitchConfig cm w index).cm.Configs = switched cm.Configs index.toNat := by
  unfold SwitchConfig
  rw [if_neg h]
  simp only
  split <;> rfl

theorem SwitchConfig_invalid (cm : ConfigManager) (w : World) (index : Int)
    (h : index < 0 ∨ index ≥ cm.Configs.length) :
    SwitchConfig cm w index = { cm := cm, world := w, err := some (.msg "invalid config index") } := by
  unfold SwitchConfig
  rw [if_pos h]

theorem switchAll_length (cm : ConfigManager) (calls : List (World × Int)) :
    (switchAll cm calls).Configs.length = cm.Configs.length := by
  induction calls generalizing cm with
  | nil => rfl
  | cons c rest ih =>
    obtain ⟨w, index⟩ := c
    simp only [switchAll]
    rw [ih]
    by_cases h : index < 0 ∨ index ≥ cm.Configs.length
    · rw [SwitchConfig_invalid cm w index h]
    · rw [SwitchConfig_cm_valid cm w index h, length_switched]

theorem switchAll_append (cm : ConfigManager) (xs ys : List (World × Int)) :
    switchAll cm (xs ++ ys) = switchAll (switchAll cm xs) ys := by
  induction xs generalizing cm with
  | nil => rfl
  | cons c rest ih =>
    obtain ⟨w, index⟩ := c
    simp only [List.cons_append, switchAll]
    exact ih _

/-- C1: after `SwitchConfig(index)` with a valid index the collection has the
same length, a profile is active exactly when it sits at `index`, and the
number of active profiles is 1, whatever `Save` and `ApplyConfig` did; with an
index out of bounds the collection (so its active profiles) is unchanged; and
after every call of a run of `SwitchConfig` calls with valid indices the number
of active profiles is 1. -/
theorem SwitchConfig_single_active (cm : ConfigManager) (w : World) (index : Int) :
    (0 ≤ index ∧ index < cm.Configs.length →
      (SwitchConfig cm w index).cm.Configs.length = cm.Configs.length ∧
      (∀ (j : Nat) (c : Config), (SwitchConfig cm w index).cm.Configs[j]? = some c →
        (c.IsActive = true ↔ (j : Int) = index)) ∧
      activeCount (SwitchConfig cm w index).cm.Configs = 1) ∧
    (¬ (0 ≤ index ∧ index < cm.Configs.length) →
      (SwitchConfig cm w index).cm.Configs = cm.Configs) ∧
    (∀ (calls : List (World × Int)) (n : Nat),
      (∀ c ∈ calls, 0 ≤ c.2 ∧ c.2 < cm.Configs.length) → 0 < n → n ≤ calls.length →
      activeCount (switchAll cm (calls.take n)).Configs = 1) := by
  have valid : ∀ (cm : ConfigManager) (w : World) (index : Int),
      0 ≤ index ∧ index < cm.Configs.length →
      (SwitchConfig cm w index).cm.Configs = switched cm.Configs index.toNat ∧
      index.toNat < cm.Configs.length := by
    intro cm w index h
    refine ⟨SwitchConfig_cm_valid cm w index (by omega), by omega⟩
  refine ⟨?_, ?_, ?_⟩
  · intro h
    obtain ⟨heq, hlt⟩ := valid cm w index h
    rw [heq]
    refine ⟨length_switched _ _, ?_, activeCount_switched _ _ hlt⟩
    intro j c hc
    rw [switched_getElem? _ _ _ _ hc]
    omega
  · intro h
    rw [SwitchConfig_invalid cm w index (by omega)]
  · intro calls n hvalid hn hle
    obtain ⟨init, last, hsplit⟩ : ∃ init last, calls.take n = init ++ [last] := by
      have hne : calls.take n ≠ [] := by
        intro hnil
        have := congrArg List.length hnil
        rw [List.length_take, List.length_nil] at this
        omega
      exact ⟨_, _, (List.dropLast_append_getLast hne).symm⟩
    have hmem : last ∈ calls := by
      apply List.mem_of_mem_take (n := n)
      rw [hsplit]; simp
    obtain ⟨w', index'⟩ := last
    rw [hsplit, switchAll_append]
    simp only [switchAll]
    have hv := hvalid _ hmem
    simp only at hv
    have hlen := switchAll_length cm init
    obtain ⟨heq, hlt⟩ := valid (switchAll cm init) w' index' (by rw [hlen]; exact hv)
    rw [heq]
    exact activeCount_switched _ _ hlt

/-! ## Go maps as key-sorted lists -/

theorem keyLess_irrefl (a : String) : ¬ keyLess a a := by
  unfold keyLess; exact lt_irrefl _

theorem keyLess_trans {a b c : String} (h1 : keyLess a b) (h2 : keyLess b c) : keyLess a c := by
  unfold keyLess at *; exact lt_trans h1 h2

theorem keyLess_asymm {a b : String} (h : keyLess a b) : ¬ keyLess b a := by
  unfold keyLess at *; exact lt_asymm h

theorem keyLess_ne {a b : String} (h : keyLess a b) : a ≠ b := by
  rintro rfl; exact keyLess_irrefl _ h

theorem keyLess_total {a b : String} (h1 : ¬ keyLess a b) (h2 : a ≠ b) : keyLess b a := by
  unfold keyLess at *
  have hne : a.data ≠ b.data := fun h => h2 (String.ext h)
  exact lt_of_le_of_ne (not_lt.mp h1) (Ne.symm hne)

theorem mapGet_mapSet {V : Type} (k k' : String) (v : V) (m : List (String × V)) :
    mapGet k (mapSet k' v m) = if k = k' then some v else mapGet k m := by
  induction m with
  | nil => simp [mapSet, mapGet]
  | cons x rest ih =>
    obtain ⟨k1, v1⟩ := x
    unfold mapSet
    by_cases h1 : keyLess k' k1
    · simp [h1, mapGet]
    · by_cases h2 : k' = k1
      · subst h2
        simp only [h1, if_false, if_true, mapGet]
        by_cases hk : k = k' <;> simp [hk]
      · simp only [h1, h2, if_false, mapGet, ih]
        by_cases h3 : k = k1
        · have : ¬ k1 = k' := fun h => h2 h.symm
          simp [h3, this]
        · simp [h3]

theorem mapGet_mapSetAll (k : String) (es m : List (String × JSON)) :
    mapGet k (mapSetAll es m) =
      match member? k es with
      | some v => some v
      | none => mapGet k m := by
  induction es generalizing m with
  | nil => rfl
  | cons x rest ih =>
    obtain ⟨k1, v1⟩ := x
    have h := ih (mapSet k1 v1 m)
    simp only [mapSetAll, List.foldl_cons] at h ⊢
    rw [h, mapGet_mapSet]
    simp only [member?]
    cases member? k rest with
    | some r => rfl
    | none =>
      by_cases hk : k = k1 <;> simp [hk]

theorem mapSet_idem {V : Type} (k : String) (v : V) (m : List (String × V)) :
    mapSet k v (mapSet k v m) = mapSet k v m := by
  induction m with
  | nil => simp [mapSet, keyLess_irrefl]
  | cons x rest ih =>
    obtain ⟨k1, v1⟩ := x
    by_cases h1 : keyLess k k1
    · simp [mapSet, h1, keyLess_irrefl]
    · by_cases h2 : k = k1
      · subst h2
        simp [mapSet, keyLess_irrefl]
      · simp [mapSet, h1, h2, ih]

theorem mapSet_comm {V : Type} (k1 k2 : String) (v1 v2 : V) (h : keyLess k1 k2)
    (m : List (String × V)) :
    mapSet k2 v2 (mapSet k1 v1 m) = mapSet k1 v1 (mapSet k2 v2 m) := by
  have h21 : ¬ keyLess k2 k1 := keyLess_asymm h
  have hne : k2 ≠ k1 := fun e => keyLess_ne h e.symm
  have hne' : k1 ≠ k2 := keyLess_ne h
  induction m with
  | nil => simp [mapSet, h, h21, hne]
  | cons x rest ih =>
    obtain ⟨kx, vx⟩ := x
    by_cases a1 : keyLess k1 kx
    · by_cases b1 : keyLess k2 kx
      · simp [mapSet, a1, b1, h, h21, hne]
      · by_cases b2 : k2 = kx
        · subst b2
          simp [mapSet, a1, h, h21, hne, keyLess_irrefl]
        · simp [mapSet, a1, b1, b2, h21, hne]
    · by_cases a2 : k1 = kx
      · subst a2
        simp [mapSet, h21, hne, keyLess_irrefl]
      · have hx1 : keyLess kx k1 := keyLess_total a1 a2
        have hx2 : keyLess kx k2 := keyLess_trans hx1 h
        have b1 : ¬ keyLess k2 kx := keyLess_asymm hx2
        have b2 : k2 ≠ kx := fun e => keyLess_ne hx2 e.symm
        simp [mapSet, a1, a2, b1, b2, ih]

theorem mapSet_append_last {V : Type} (k : String) (v : V) (acc : List (String × V))
    (h : ∀ x ∈ acc, keyLess x.1 k) : mapSet k v acc = acc ++ [(k, v)] := by
  induction acc with
  | nil => rfl
  | cons x rest ih =>
    obtain ⟨kx, vx⟩ := x
    have hx : keyLess kx k := h (kx, vx) (List.mem_cons_self _ _)
    have h1 : ¬ keyLess k kx := keyLess_asymm hx
    have h2 : k ≠ kx := fun e => keyLess_ne hx e.symm
    have := ih (fun y hy => h y (List.mem_cons_of_mem _ hy))
    simp [mapSet, h1, h2, this]

theorem mapSetAll_append {V : Type} (m acc : List (String × V)) (h : KeySorted (acc ++ m)) :
    mapSetAll m acc = acc ++ m := by
  induction m generalizing acc with
  | nil => simp [mapSetAll]
  | cons x rest ih =>
    obtain ⟨k, v⟩ := x
    have hlast : mapSet k v acc = acc ++ [(k, v)] := by
      apply mapSet_append_last
      intro y hy
      unfold KeySorted at h
      rw [List.pairwise_append] at h
      exact h.2.2 y hy (k, v) (List.mem_cons_self _ _)
    have hs : KeySorted ((acc ++ [(k, v)]) ++ rest) := by
      simpa [List.append_assoc] using h
    have := ih (acc ++ [(k, v)]) hs
    simp only [mapSetAll, List.foldl_cons] at this ⊢
    rw [hlast, this]
    simp

theorem mem_mapSet {V : Type} (k : String) (v : V) (m : List (String × V)) (x : String × V)
    (hx : x ∈ mapSet k v m) : x = (k, v) ∨ x ∈ m := by
  induction m with
  | nil => simpa [mapSet] using hx
  | cons y rest ih =>
    obtain ⟨ky, vy⟩ := y
    unfold mapSet at hx
    by_cases h1 : keyLess k ky
    · simp only [h1, if_true, List.mem_cons] at hx
      simp only [List.mem_cons]
      tauto
    · by_cases h2 : k = ky
      · subst h2
        simp only [h1, if_false, if_true, List.mem_cons] at hx
        simp only [List.mem_cons]
        tauto
      · simp only [h1, h2, if_false, List.mem_cons] at hx
        simp only [List.mem_cons]
        rcases hx with hx | hx
        · tauto
        · have := ih hx; tauto

theorem mapSet_sorted {V : Type} (k : String) (v : V) (m : List (String × V))
    (h : KeySorted m) : KeySorted (mapSet k v m) := by
  induction m with
  | nil => simp [mapSet, KeySorted]
  | cons y rest ih =>
    obtain ⟨ky, vy⟩ := y
    unfold KeySorted at h ih ⊢
    rw [List.pairwise_cons] at h
    unfold mapSet
    by_cases h1 : keyLess k ky
    · simp only [h1, if_true]
      rw [List.pairwise_cons, List.pairwise_cons]
      refine ⟨?_, h.1, h.2⟩
      intro a ha
      rcases List.mem_cons.mp ha with ha | ha
      · rw [ha]; exact h1
      · exact keyLess_trans h1 (h.1 a ha)
    · by_cases h2 : k = ky
      · subst h2
        simp only [h1, if_false, if_true]
        rw [List.pairwise_cons]
        exact ⟨h.1, h.2⟩
      · simp only [h1, h2, if_false]
        rw [List.pairwise_cons]
        refine ⟨?_, ih h.2⟩
        intro a ha
        rcases mem_mapSet k v rest a ha with ha | ha
        · rw [ha]; exact keyLess_total h1 h2
        · exact h.1 a ha

theorem mapSetAll_sorted {V : Type} (es m : List (String × V)) (h : KeySorted m) :
    KeySorted (mapSetAll es m) := by
  induction es generalizing m with
  | nil => exact h
  | cons x rest ih =>
    simp only [mapSetAll, List.foldl_cons] at ih ⊢
    exact ih _ (mapSet_sorted _ _ _ h)

/-! ## The activation engine -/

theorem keyLess_auth_base : keyLess authTokenKey baseURLKey := by decide

theorem outOfRangeMembers_false_iff (ms : List (String × JSON)) :
    outOfRangeMembers ms = false ↔ ∀ kv ∈ ms, outOfRange kv.2 = false := by
  induction ms with
  | nil => simp [outOfRangeMembers]
  | cons x rest ih =>
    obtain ⟨k, v⟩ := x
    simp [outOfRangeMembers, ih]

theorem outOfRangeMembers_mapSet (k : String) (v : JSON) (m : List (String × JSON))
    (hv : outOfRange v = false) (hm : outOfRangeMembers m = false) :
    outOfRangeMembers (mapSet k v m) = false := by
  rw [outOfRangeMembers_false_iff] at hm ⊢
  intro kv hkv
  rcases mem_mapSet k v m kv hkv with h | h
  · rw [h]; exact hv
  · exact hm kv h

theorem outOfRangeMembers_mapSetAll (es m : List (String × JSON))
    (hes : outOfRangeMembers es = false) (hm : outOfRangeMembers m = false) :
    outOfRangeMembers (mapSetAll es m) = false := by
  induction es generalizing m with
  | nil => exact hm
  | cons x rest ih =>
    obtain ⟨k, v⟩ := x
    rw [outOfRangeMembers_false_iff] at hes
    have hv : outOfRange v = false := hes (k, v) (List.mem_cons_self _ _)
    have hrest : outOfRangeMembers rest = false := by
      rw [outOfRangeMembers_false_iff]
      exact fun kv h => hes kv (List.mem_cons_of_mem _ h)
    have := ih (mapSet k v m) hrest (outOfRangeMembers_mapSet k v m hv hm)
    simpa [mapSetAll] using this

theorem outOfRangeMembers_gatherFrom (acc : List (String × JSON)) (vs : List JSON)
    (hacc : outOfRangeMembers acc = false) (hvs : vs.all envParses = true) :
    outOfRangeMembers (gatherFrom acc vs) = false := by
  induction vs generalizing acc with
  | nil => exact hacc
  | cons v rest ih =>
    simp only [List.all_cons, Bool.and_eq_true] at hvs
    simp only [gatherFrom, List.foldl_cons] at ih ⊢
    cases v with
    | null => exact ih [] rfl hvs.2
    | obj es =>
      apply ih _ _ hvs.2
      have hes : outOfRangeMembers es = false := by simpa [envParses] using hvs.1
      rw [outOfRangeMembers_false_iff] at hacc hes ⊢
      intro kv hkv
      rcases List.mem_append.mp hkv with h | h
      · exact hacc kv h
      · exact hes kv h
    | _ => exact ih acc hacc hvs.2

theorem mapSetAll_append_left {V : Type} (a b m : List (String × V)) :
    mapSetAll (a ++ b) m = mapSetAll b (mapSetAll a m) := by
  simp [mapSetAll, List.foldl_append]

theorem foldl_decodeMember (ms : List (String × JSON)) (E : Option (List (String × JSON)))
    (e : Option Error) (acc : List (String × JSON)) (hE : E.getD [] = mapSetAll acc []) :
    ((ms.foldl decodeMember ({ Env := E }, e)).2 = none ↔
      e = none ∧ (envValues ms).all envParses = true) ∧
    (ms.foldl decodeMember ({ Env := E }, e)).1.Env.getD [] =
      mapSetAll (gatherFrom acc (envValues ms)) [] := by
  induction ms generalizing E e acc with
  | nil => simp [envValues, gatherFrom, hE]
  | cons x rest ih =>
    obtain ⟨k, v⟩ := x
    simp only [List.foldl_cons]
    by_cases hk : fieldMatches k = true
    · have hvals : envValues ((k, v) :: rest) = v :: envValues rest := by
        simp [envValues, hk]
      rw [hvals]
      cases v with
      | null =>
        have := ih none e [] rfl
        simpa [decodeMember, hk, gatherFrom, envParses] using this
      | obj es =>
        have hE' : (some (mapSetAll es (E.getD []))).getD [] = mapSetAll (acc ++ es) [] := by
          simp [hE, mapSetAll_append_left]
        have := ih (some (mapSetAll es (E.getD [])))
          (firstError e (if outOfRangeMembers es then some .unmarshal else none)) (acc ++ es) hE'
        simp only [decodeMember, hk, if_true, gatherFrom, List.foldl_cons, List.all_cons,
          envParses] at this ⊢
        refine ⟨?_, this.2⟩
        rw [this.1]
        cases e <;> cases outOfRangeMembers es <;> simp [firstError]
      | bool b =>
        have := ih E (firstError e (some .unmarshal)) acc hE
        simp only [decodeMember, hk, if_true, gatherFrom, List.foldl_cons, List.all_cons,
          envParses] at this ⊢
        refine ⟨?_, this.2⟩
        rw [this.1]
        cases e <;> simp [firstError]
      | num n =>
        have := ih E (firstError e (some .unmarshal)) acc hE
        simp only [decodeMember, hk, if_true, gatherFrom, List.foldl_cons, List.all_cons,
          envParses] at this ⊢
        refine ⟨?_, this.2⟩
        rw [this.1]
        cases e <;> simp [firstError]
      | str t =>
        have := ih E (firstError e (some .unmarshal)) acc hE
        simp only [decodeMember, hk, if_true, gatherFrom, List.foldl_cons, List.all_cons,
          envParses] at this ⊢
        refine ⟨?_, this.2⟩
        rw [this.1]
        cases e <;> simp [firstError]
      | arr xs =>
        have := ih E (firstError e (some .unmarshal)) acc hE
        simp only [decodeMember, hk, if_true, gatherFrom, List.foldl_cons, List.all_cons,
          envParses] at this ⊢
        refine ⟨?_, this.2⟩
        rw [this.1]
        cases e <;> simp [firstError]
    · have hvals : envValues ((k, v) :: rest) = envValues rest := by
        simp [envValues, hk]
      rw [hvals]
      have := ih E e acc hE
      simpa [decodeMember, hk] using this

theorem unmarshalSettings_obj (ms : List (String × JSON)) :
    ((unmarshalSettings (.json (.obj ms)) { Env := some [] }).2 = none ↔
      (envValues ms).all envParses = true) ∧
    (unmarshalSettings (.json (.obj ms)) { Env := some [] }).1.Env.getD [] =
      mapSetAll (gatherFrom [] (envValues ms)) [] := by
  have := foldl_decodeMember ms (some []) none [] rfl
  simpa [unmarshalSettings] using this

theorem readSettings_eq (w : World) :
    readSettings w = { Env := some (mapSetAll (decodedEnv w) []) } := by
  unfold readSettings decodedEnv
  cases hr : readFileSettings w with
  | error e => rfl
  | ok data =>
    cases data with
    | malformed raw => rfl
    | json v =>
      cases v with
      | obj ms =>
        obtain ⟨herr, henv⟩ := unmarshalSettings_obj ms
        simp only
        cases hres : unmarshalSettings (.json (.obj ms)) { Env := some [] } with
        | mk s e =>
          rw [hres] at herr henv
          simp only at herr henv
          cases e with
          | some err =>
            have hnot : ¬ (envValues ms).all envParses = true := fun h => by
              have := herr.mpr h
              simp at this
            simp only [hnot, if_false]
            rfl
          | none =>
            have hall : (envValues ms).all envParses = true := herr.mp rfl
            simp only [hall, if_true]
            rw [← henv]
            cases hs : s.Env with
            | none => rfl
            | some m =>
              obtain ⟨env⟩ := s
              simp only at hs
              simp [hs]
      | _ => rfl

theorem decodedEnv_congr (w w2 : World) (h1 : w2.settingsFile = w.settingsFile)
    (h2 : w2.readSettingsResult = w.readSettingsResult) : decodedEnv w2 = decodedEnv w := by
  simp only [decodedEnv, readFileSettings, h1, h2]

theorem applyConfigUnix_ok (config : Config) (w : World) (hhome : w.homeDirResult = none)
    (hmk : w.mkdirResult = none) (hwrite : w.writeSettingsResult = .ok) :
    applyConfigUnix config w = (unixDone config w, none) := by
  obtain ⟨goos, cf, sf, env, hd, md, rs, wc, ws, sx, lg⟩ := w
  simp only at hhome hmk hwrite
  subst hhome hmk hwrite
  unfold applyConfigUnix
  simp only [World.record, marshalSettings, updateSettings, readSettings_eq, Option.getD_some,
    unixDone, writtenEnv]
  rfl

theorem writtenEnv_sorted (config : Config) (w : World) : KeySorted (writtenEnv config w) := by
  unfold writtenEnv
  apply mapSet_sorted
  apply mapSet_sorted
  apply mapSetAll_sorted
  simp [KeySorted]

theorem decodedEnv_inRange (w : World) : outOfRangeMembers (decodedEnv w) = false := by
  unfold decodedEnv
  cases readFileSettings w with
  | error e => rfl
  | ok data =>
    cases data with
    | malformed raw => rfl
    | json v =>
      cases v with
      | obj ms =>
        simp only
        by_cases h : (envValues ms).all envParses = true
        · rw [if_pos h]
          exact outOfRangeMembers_gatherFrom [] _ rfl h
        · rw [if_neg h]
          rfl
      | _ => rfl

theorem writtenEnv_inRange (config : Config) (w : World) :
    outOfRangeMembers (writtenEnv config w) = false := by
  unfold writtenEnv
  apply outOfRangeMembers_mapSet _ _ _ (by simp [outOfRange])
  apply outOfRangeMembers_mapSet _ _ _ (by simp [outOfRange])
  exact outOfRangeMembers_mapSetAll _ _ (decodedEnv_inRange w) rfl

theorem mapSet_pair_idem {V : Type} (a b : V) (m : List (String × V)) :
    mapSet baseURLKey b (mapSet authTokenKey a (mapSet baseURLKey b (mapSet authTokenKey a m))) =
      mapSet baseURLKey b (mapSet authTokenKey a m) := by
  rw [← mapSet_comm authTokenKey baseURLKey a b keyLess_auth_base (mapSet authTokenKey a m),
    mapSet_idem, mapSet_idem]

theorem decodedEnv_unixDone (config : Config) (w : World) :
    mapSetAll (decodedEnv (unixDone config w)) [] =
      match w.readSettingsResult with
      | some _ => []
      | none => writtenEnv config w := by
  cases hr : w.readSettingsResult with
  | some e =>
    simp [decodedEnv, readFileSettings, unixDone, hr, mapSetAll]
  | none =>
    have hs := writtenEnv_sorted config w
    have hself : mapSetAll (writtenEnv config w) [] = writtenEnv config w := by
      have := mapSetAll_append (writtenEnv config w) [] (by simpa using hs)
      simpa using this
    have hm : fieldMatches "env" = true := by decide
    have hd : decodedEnv (unixDone config w) = writtenEnv config w := by
      simp [decodedEnv, readFileSettings, unixDone, hr, envValues, hm, envParses,
        writtenEnv_inRange, gatherFrom]
    simp only [hd, hself]

theorem decodedEnv_unreadable (w : World) (e : Error) (hr : w.readSettingsResult = some e) :
    decodedEnv w = [] := by
  unfold decodedEnv readFileSettings
  cases w.settingsFile <;> simp [hr]

theorem writtenEnv_again (config : Config) (w : World) :
    writtenEnv config (unixDone config w) = writtenEnv config w := by
  have hunf : ∀ x, writtenEnv config x = mapSet baseURLKey (.str config.BaseURL)
      (mapSet authTokenKey (.str config.Token) (mapSetAll (decodedEnv x) [])) := fun _ => rfl
  rw [hunf (unixDone config w), decodedEnv_unixDone]
  cases hr : w.readSettingsResult with
  | some e =>
    simp only
    rw [hunf w, decodedEnv_unreadable w e hr]
    rfl
  | none =>
    simp only
    rw [hunf w]
    exact mapSet_pair_idem _ _ _

/-- C2 as amended: on the settings-file branch, when the home directory
resolves and the directory creation and the file write succeed,
`applyConfigUnix` returns no error whatever the file held before (missing,
unreadable, not a JSON text, or any JSON text), and writes a document whose
`env` mapping is `B` with `ANTHROPIC_AUTH_TOKEN` set to the token and
`ANTHROPIC_BASE_URL` set to the base URL of the profile: every other key reads
as it did in `B`. Here `B` is `decodedEnv`: the entries of every top-level
member called `env` up to letter case, in the order of the text, and no entry
when the file is missing or cannot be read or does not decode. -/
theorem applyConfigUnix_merge (config : Config) (w : World) (hhome : w.homeDirResult = none)
    (hmk : w.mkdirResult = none) (hwrite : w.writeSettingsResult = .ok) :
    (applyConfigUnix config w).2 = none ∧
    ∃ env, (applyConfigUnix config w).1.settingsFile = some (.json (.obj [("env", .obj env)])) ∧
      ∀ k, mapGet k env =
        if k = authTokenKey then some (.str config.Token)
        else if k = baseURLKey then some (.str config.BaseURL)
        else member? k (decodedEnv w) := by
  rw [applyConfigUnix_ok config w hhome hmk hwrite]
  refine ⟨rfl, writtenEnv config w, rfl, ?_⟩
  intro k
  unfold writtenEnv
  rw [mapGet_mapSet, mapGet_mapSet, mapGet_mapSetAll]
  have hab : authTokenKey ≠ baseURLKey := by decide
  by_cases ha : k = authTokenKey
  · subst ha
    simp [hab]
  · by_cases hb : k = baseURLKey
    · subst hb
      simp [hab.symm]
    · simp only [ha, hb, if_false]
      cases member? k (decodedEnv w) <;> rfl

/-- On `sampleWorld` the home directory resolves and the directory creation and
the write succeed; applying the example profile there returns no error, and
the key `K` of the old `env` mapping keeps its value `V` in the document
written. -/
theorem applyConfigUnix_merge_witness :
    sampleWorld.homeDirResult = none ∧ sampleWorld.mkdirResult = none ∧
    sampleWorld.writeSettingsResult = .ok ∧
    (applyConfigUnix sampleConfig sampleWorld).2 = none ∧
    ∃ env, (applyConfigUnix sampleConfig sampleWorld).1.settingsFile =
        some (.json (.obj [("env", .obj env)])) ∧
      mapGet "K" env = some (.str "V") :=
  ⟨rfl, rfl, rfl, (applyConfigUnix_merge sampleConfig sampleWorld rfl rfl rfl).1,
    (applyConfigUnix_merge sampleConfig sampleWorld rfl rfl rfl).2.elim
      (fun env h => ⟨env, h.1, (h.2 "K").trans rfl⟩)⟩

/-- C2 as stated fails. The settings file of `upperCaseWorld` is an object with
the single member `ENV`, which holds the entry `K` with the value `V`: the file
parses and has no member `env`, so its `env` mapping read by name is empty and
the claim puts only the two owned keys into the document written. Every system
call succeeds and `applyConfigUnix` returns no error, but the `env` mapping it
writes holds `K` with the value `V`: the decoder takes `ENV` for the field
tagged `env`. -/
theorem applyConfigUnix_merge_by_name_fails :
    upperCaseWorld.settingsFile = some (.json (.obj [("ENV", .obj [("K", .str "V")])])) ∧
    existingEnv upperCaseWorld.settingsFile = [] ∧
    upperCaseWorld.homeDirResult = none ∧ upperCaseWorld.mkdirResult = none ∧
    upperCaseWorld.writeSettingsResult = .ok ∧
    (applyConfigUnix sampleConfig upperCaseWorld).2 = none ∧
    (applyConfigUnix sampleConfig upperCaseWorld).1.settingsFile =
      some (.json (.obj [("env", .obj [("ANTHROPIC_AUTH_TOKEN", .str "tok123"),
        ("ANTHROPIC_BASE_URL", .str "https://api.example.com"), ("K", .str "V")])])) ∧
    mapGet "K" [("ANTHROPIC_AUTH_TOKEN", JSON.str "tok123"),
        ("ANTHROPIC_BASE_URL", .str "https://api.example.com"), ("K", .str "V")] =
      some (.str "V") ∧
    ¬ (∃ env, (applyConfigUnix sampleConfig upperCaseWorld).1.settingsFile =
        some (.json (.obj [("env", .obj env)])) ∧
      ∀ k, mapGet k env =
        if k = authTokenKey then some (.str sampleConfig.Token)
        else if k = baseURLKey then some (.str sampleConfig.BaseURL)
        else member? k (existingEnv upperCaseWorld.settingsFile)) := by
  have hfile : (applyConfigUnix sampleConfig upperCaseWorld).1.settingsFile =
      some (.json (.obj [("env", .obj [("ANTHROPIC_AUTH_TOKEN", .str "tok123"),
        ("ANTHROPIC_BASE_URL", .str "https://api.example.com"), ("K", .str "V")])])) := rfl
  refine ⟨rfl, rfl, rfl, rfl, rfl, rfl, hfile, rfl, ?_⟩
  rintro ⟨env, henv, hget⟩
  rw [hfile] at henv
  have henv2 : env = [("ANTHROPIC_AUTH_TOKEN", JSON.str "tok123"),
      ("ANTHROPIC_BASE_URL", .str "https://api.example.com"), ("K", .str "V")] := by
    simp only [Option.some.injEq, FileData.json.injEq, JSON.obj.injEq, List.cons.injEq,
      Prod.mk.injEq, true_and, and_true] at henv
    exact henv.symm
  have hK := hget "K"
  rw [henv2] at hK
  have h1 : mapGet "K" [("ANTHROPIC_AUTH_TOKEN", JSON.str "tok123"),
      ("ANTHROPIC_BASE_URL", .str "https://api.example.com"), ("K", .str "V")] =
      some (.str "V") := rfl
  have h2 : (if "K" = authTokenKey then some (JSON.str sampleConfig.Token)
      else if "K" = baseURLKey then some (.str sampleConfig.BaseURL)
      else member? "K" (existingEnv upperCaseWorld.settingsFile)) = none := rfl
  rw [h1, h2] at hK
  exact absurd hK (by simp)
theorem applyConfigUnix_ok_inv (config : Config) (w : World)
    (h : (applyConfigUnix config w).2 = none) :
    w.homeDirResult = none ∧ w.mkdirResult = none ∧ w.writeSettingsResult = .ok := by
  unfold applyConfigUnix at h
  simp only [World.record] at h
  cases hh : w.homeDirResult with
  | some e => simp [hh] at h
  | none =>
    cases hm : w.mkdirResult with
    | some e => simp [hh, hm] at h
    | none =>
      cases hw : w.writeSettingsResult with
      | fails e left => simp [hh, hm, hw, marshalSettings, updateSettings] at h
      | ok => exact ⟨rfl, rfl, rfl⟩

theorem applyConfigWindows_ok (config : Config) (w : World)
    (h1 : w.setxResult authTokenKey = none) (h2 : w.setxResult baseURLKey = none) :
    applyConfigWindows config w = (windowsDone config w, none) := by
  simp [applyConfigWindows, World.record, h1, h2, windowsDone]

theorem applyConfigWindows_ok_inv (config : Config) (w : World)
    (h : (applyConfigWindows config w).2 = none) :
    w.setxResult authTokenKey = none ∧ w.setxResult baseURLKey = none := by
  unfold applyConfigWindows at h
  simp only [World.record] at h
  cases h1 : w.setxResult authTokenKey with
  | some e => simp [h1] at h
  | none =>
    cases h2 : w.setxResult baseURLKey with
    | some e => simp [h1, h2] at h
    | none => exact ⟨rfl, rfl⟩

/-- C3, the code at a failing input: the settings file holds the top-level key
`model` next to `env`; `applyConfigUnix` succeeds and writes a document that
holds `env` alone (with the key `K` kept inside it), so `model` is gone. -/
theorem applyConfigUnix_drops_top_level_key :
    sampleWorld.settingsFile =
      some (.json (.obj [("model", .str "opus"), ("env", .obj [("K", .str "V")])])) ∧
    (applyConfigUnix sampleConfig sampleWorld).2 = none ∧
    (applyConfigUnix sampleConfig sampleWorld).1.settingsFile =
      some (.json (.obj [("env", .obj [("ANTHROPIC_AUTH_TOKEN", .str "tok123"),
        ("ANTHROPIC_BASE_URL", .str "https://api.example.com"), ("K", .str "V")])])) ∧
    member? "model" [("env", JSON.obj [("ANTHROPIC_AUTH_TOKEN", .str "tok123"),
        ("ANTHROPIC_BASE_URL", .str "https://api.example.com"), ("K", .str "V")])] = none := by
  refine ⟨rfl, rfl, ?_, ?_⟩
  · rfl
  · rfl

/-- C9: `ApplyConfig` is idempotent on both branches. When a call of
`ApplyConfig(p)` returns no error, a second call with the same profile right
after it returns no error either and leaves the configuration target (the
settings file and the persistent environment variables) as the first call
left it. -/
theorem ApplyConfig_idempotent (p : Config) (w : World)
    (h : (ApplyConfig (some p) w).2 = none) :
    (ApplyConfig (some p) (ApplyConfig (some p) w).1).2 = none ∧
    target (ApplyConfig (some p) (ApplyConfig (some p) w).1).1 =
      target (ApplyConfig (some p) w).1 := by
  by_cases hw : w.goos = "windows"
  · simp only [ApplyConfig, hw, if_true] at h
    obtain ⟨h1, h2⟩ := applyConfigWindows_ok_inv p w h
    have e1 : ApplyConfig (some p) w = applyConfigWindows p w := by
      simp only [ApplyConfig, hw, if_true]
    have e2 : ApplyConfig (some p) (windowsDone p w) = applyConfigWindows p (windowsDone p w) := by
      simp only [ApplyConfig]
      exact if_pos hw
    rw [e1, applyConfigWindows_ok p w h1 h2]
    simp only
    rw [e2, applyConfigWindows_ok p (windowsDone p w) h1 h2]
    refine ⟨rfl, ?_⟩
    simp only [target, windowsDone, mapSet_pair_idem]
  · simp only [ApplyConfig, hw, if_false] at h
    obtain ⟨h1, h2, h3⟩ := applyConfigUnix_ok_inv p w h
    have e1 : ApplyConfig (some p) w = applyConfigUnix p w := by
      simp only [ApplyConfig, hw, if_false]
    have e2 : ApplyConfig (some p) (unixDone p w) = applyConfigUnix p (unixDone p w) := by
      simp only [ApplyConfig]
      exact if_neg hw
    rw [e1, applyConfigUnix_ok p w h1 h2 h3]
    simp only
    rw [e2, applyConfigUnix_ok p (unixDone p w) h1 h2 h3]
    refine ⟨rfl, ?_⟩
    have hagain := writtenEnv_again p w
    simp only [target]
    rw [show (unixDone p (unixDone p w)).settingsFile =
      some (.json (.obj [("env", .obj (writtenEnv p (unixDone p w)))])) from rfl, hagain]
    rfl

/-- Applying the example profile on `sampleWorld` succeeds, and applying it
again leaves the target as it was. -/
theorem ApplyConfig_idempotent_witness :
    (ApplyConfig (some sampleConfig) sampleWorld).2 = none ∧
    target (ApplyConfig (some sampleConfig) (ApplyConfig (some sampleConfig) sampleWorld).1).1 =
      target (ApplyConfig (some sampleConfig) sampleWorld).1 :=
  ⟨rfl, (ApplyConfig_idempotent sampleConfig sampleWorld rfl).2⟩

/-! ## The configuration store -/

theorem Save_ok (cm : ConfigManager) (w : World) (h : w.writeConfigsResult = .ok) :
    Save cm w = (afterSave cm.Configs w, none) := by
  simp [Save, marshalConfigs, World.record, h, afterSave, savedData]

theorem Save_fails (cm : ConfigManager) (w : World) (e : Error) (left : Option FileData)
    (h : w.writeConfigsResult = .fails e left) :
    Save cm w =
      ({ w with log := w.log ++ [.writeConfigs (savedData cm.Configs)], configsFile := left },
        some e) := by
  simp [Save, marshalConfigs, World.record, h, savedData]

theorem Save_log (cm : ConfigManager) (w : World) :
    (Save cm w).1.log = w.log ++ [.writeConfigs (savedData cm.Configs)] ∧
    target (Save cm w).1 = target w := by
  cases h : w.writeConfigsResult with
  | ok => rw [Save_ok cm w h]; exact ⟨rfl, rfl⟩
  | fails e left => rw [Save_fails cm w e left h]; exact ⟨rfl, rfl⟩

theorem Save_ok_inv (cm : ConfigManager) (w : World) (h : (Save cm w).2 = none) :
    w.writeConfigsResult = .ok := by
  cases hw : w.writeConfigsResult with
  | ok => rfl
  | fails e left => rw [Save_fails cm w e left hw] at h; simp at h

theorem unmarshal_marshalConfig (c : Config) : unmarshalConfig (marshalConfig c) = (c, none) := by
  simp [unmarshalConfig, marshalConfig, stringField, boolField, member?, firstError]

theorem unmarshalConfigList_marshal (cs : List Config) :
    unmarshalConfigList (cs.map marshalConfig) = (cs, none) := by
  induction cs with
  | nil => rfl
  | cons c rest ih =>
    simp only [List.map_cons, unmarshalConfigList, ih, unmarshal_marshalConfig, firstError]

theorem unmarshalConfigs_savedData (cs : List Config) :
    unmarshalConfigs (savedData cs) = (cs, none) := by
  simp only [savedData, unmarshalConfigs]
  exact unmarshalConfigList_marshal cs

theorem AddConfig_cm (cm : ConfigManager) (w : World) (name baseURL token : String) :
    (AddConfig cm w name baseURL token).cm.Configs =
      cm.Configs ++ [{ Name := name, BaseURL := baseURL, Token := token, IsActive := false }] :=
  rfl

theorem EditConfig_invalid (cm : ConfigManager) (w : World) (index : Int)
    (name baseURL token : String) (h : index < 0 ∨ index ≥ cm.Configs.length) :
    EditConfig cm w index name baseURL token =
      { cm := cm, world := w, err := some (.msg "invalid config index") } := by
  unfold EditConfig
  rw [if_pos h]

theorem DeleteConfig_invalid (cm : ConfigManager) (w : World) (index : Int)
    (h : index < 0 ∨ index ≥ cm.Configs.length) :
    DeleteConfig cm w index =
      { cm := cm, world := w, err := some (.msg "invalid config index") } := by
  unfold DeleteConfig
  rw [if_pos h]

theorem EditConfig_cm_valid (cm : ConfigManager) (w : World) (index : Int)
    (name baseURL token : String) (h : ¬ (index < 0 ∨ index ≥ cm.Configs.length)) :
    (EditConfig cm w index name baseURL token).cm.Configs =
      edited cm.Configs index.toNat name baseURL token := by
  unfold EditConfig
  rw [if_neg h]
  simp only
  split
  · rfl
  · split <;> rfl

theorem DeleteConfig_cm_valid (cm : ConfigManager) (w : World) (index : Int)
    (h : ¬ (index < 0 ∨ index ≥ cm.Configs.length)) :
    (DeleteConfig cm w index).cm.Configs =
      cm.Configs.take index.toNat ++ cm.Configs.drop (index.toNat + 1) := by
  unfold DeleteConfig
  rw [if_neg h]

/-- C5: with an index below 0 or not below the length of the collection, each
of `EditConfig`, `DeleteConfig` and `SwitchConfig` returns the error
"invalid config index" and leaves the manager and the whole host as they were:
the collection in memory, both files, the environment, and the log of system
calls, to which neither `Save` nor `ApplyConfig` has added anything. -/
theorem invalid_index_rejected (cm : ConfigManager) (w : World) (index : Int)
    (name baseURL token : String) (h : index < 0 ∨ index ≥ cm.Configs.length) :
    EditConfig cm w index name baseURL token =
      { cm := cm, world := w, err := some (.msg "invalid config index") } ∧
    DeleteConfig cm w index =
      { cm := cm, world := w, err := some (.msg "invalid config index") } ∧
    SwitchConfig cm w index =
      { cm := cm, world := w, err := some (.msg "invalid config index") } :=
  ⟨EditConfig_invalid cm w index name baseURL token h, DeleteConfig_invalid cm w index h,
    SwitchConfig_invalid cm w index h⟩

theorem mapGet_none_of_lt {V : Type} (k : String) (m : List (String × V))
    (h : ∀ x ∈ m, keyLess k x.1) : mapGet k m = none := by
  induction m with
  | nil => rfl
  | cons x rest ih =>
    obtain ⟨k1, v1⟩ := x
    have h1 : k ≠ k1 := keyLess_ne (h (k1, v1) (List.mem_cons_self _ _))
    simp only [mapGet, h1, if_false]
    exact ih (fun y hy => h y (List.mem_cons_of_mem _ hy))

theorem member?_eq_mapGet (k : String) (m : List (String × JSON)) (h : KeySorted m) :
    member? k m = mapGet k m := by
  induction m with
  | nil => rfl
  | cons x rest ih =>
    obtain ⟨k1, v1⟩ := x
    unfold KeySorted at h ih
    rw [List.pairwise_cons] at h
    simp only [member?, mapGet, ih h.2]
    by_cases hk : k = k1
    · subst hk
      rw [mapGet_none_of_lt k rest (fun y hy => h.1 y hy)]
    · simp only [hk, if_false]
      cases mapGet k rest <;> rfl

theorem ApplyConfig_ok_world (p : Config) (w : World) (h : (ApplyConfig (some p) w).2 = none) :
    (ApplyConfig (some p) w).1 = if w.goos = "windows" then windowsDone p w else unixDone p w := by
  by_cases hw : w.goos = "windows"
  · simp only [ApplyConfig, hw, if_true] at h ⊢
    obtain ⟨h1, h2⟩ := applyConfigWindows_ok_inv p w h
    rw [applyConfigWindows_ok p w h1 h2]
  · simp only [ApplyConfig, hw, if_false] at h ⊢
    obtain ⟨h1, h2, h3⟩ := applyConfigUnix_ok_inv p w h
    rw [applyConfigUnix_ok p w h1 h2 h3]

theorem targetValue_done (p : Config) (w : World) :
    targetValue (if w.goos = "windows" then windowsDone p w else unixDone p w) authTokenKey =
      some (.str p.Token) ∧
    targetValue (if w.goos = "windows" then windowsDone p w else unixDone p w) baseURLKey =
      some (.str p.BaseURL) := by
  have hab : authTokenKey ≠ baseURLKey := by decide
  by_cases hw : w.goos = "windows"
  · rw [if_pos hw]
    have hg : (windowsDone p w).goos = "windows" := hw
    refine ⟨?_, ?_⟩ <;>
    · unfold targetValue
      rw [if_pos hg]
      simp [windowsDone, mapGet_mapSet, hab]
  · rw [if_neg hw]
    have hg : ¬ (unixDone p w).goos = "windows" := hw
    have hex : existingEnv (unixDone p w).settingsFile = writtenEnv p w := by
      simp [unixDone, existingEnv, member?]
    refine ⟨?_, ?_⟩ <;>
    · unfold targetValue
      rw [if_neg hg, hex, member?_eq_mapGet _ _ (writtenEnv_sorted p w)]
      simp only [writtenEnv, mapGet_mapSet]
      simp [hab]

theorem applyConfigWindows_frame (p : Config) (w : World) :
    (applyConfigWindows p w).1.configsFile = w.configsFile ∧
    ∃ rest, (applyConfigWindows p w).1.log = w.log ++ rest := by
  unfold applyConfigWindows
  simp only [World.record]
  cases w.setxResult authTokenKey with
  | some e => exact ⟨rfl, _, rfl⟩
  | none =>
    cases w.setxResult baseURLKey with
    | some e => exact ⟨rfl, _, List.append_assoc _ _ _⟩
    | none => exact ⟨rfl, _, List.append_assoc _ _ _⟩

theorem applyConfigUnix_frame (p : Config) (w : World) :
    (applyConfigUnix p w).1.configsFile = w.configsFile ∧
    ∃ rest, (applyConfigUnix p w).1.log = w.log ++ rest := by
  unfold applyConfigUnix
  simp only [World.record, marshalSettings, updateSettings]
  cases w.homeDirResult with
  | some e => exact ⟨rfl, _, rfl⟩
  | none =>
    cases w.mkdirResult with
    | some e => exact ⟨rfl, _, List.append_assoc _ _ _⟩
    | none =>
      cases w.writeSettingsResult with
      | fails e left =>
        exact ⟨rfl, _, by rw [List.append_assoc, List.append_assoc, List.append_assoc]⟩
      | ok => exact ⟨rfl, _, by rw [List.append_assoc, List.append_assoc, List.append_assoc]⟩

theorem ApplyConfig_frame (c : Option Config) (w : World) :
    (ApplyConfig c w).1.configsFile = w.configsFile ∧
    ∃ rest, (ApplyConfig c w).1.log = w.log ++ rest := by
  cases c with
  | none => exact ⟨rfl, [], by simp [ApplyConfig]⟩
  | some p =>
    by_cases hw : w.goos = "windows"
    · simp only [ApplyConfig, hw, if_true]
      exact applyConfigWindows_frame p w
    · simp only [ApplyConfig, hw, if_false]
      exact applyConfigUnix_frame p w

theorem EditConfig_save_fails (cm : ConfigManager) (w : World) (index : Int)
    (name baseURL token : String) (h : ¬ (index < 0 ∨ index ≥ cm.Configs.length))
    (e : Error) (left : Option FileData) (hw : w.writeConfigsResult = .fails e left) :
    EditConfig cm w index name baseURL token =
      { cm := { cm with Configs := edited cm.Configs index.toNat name baseURL token }
        world := { w with
          log := w.log ++
            [.writeConfigs (savedData (edited cm.Configs index.toNat name baseURL token))]
          configsFile := left }
        err := some e } := by
  unfold EditConfig
  rw [if_neg h]
  simp only
  rw [Save_fails _ w e left hw]
  rfl

theorem EditConfig_save_ok (cm : ConfigManager) (w : World) (index : Int)
    (name baseURL token : String) (h : ¬ (index < 0 ∨ index ≥ cm.Configs.length))
    (hw : w.writeConfigsResult = .ok) (c : Config) (hc : cm.Configs[index.toNat]? = some c) :
    EditConfig cm w index name baseURL token =
      if c.IsActive = true then
        { cm := { cm with Configs := edited cm.Configs index.toNat name baseURL token }
          world := (ApplyConfig
            (some { Name := name, BaseURL := baseURL, Token := token, IsActive := c.IsActive })
            (afterSave (edited cm.Configs index.toNat name baseURL token) w)).1
          err := (ApplyConfig
            (some { Name := name, BaseURL := baseURL, Token := token, IsActive := c.IsActive })
            (afterSave (edited cm.Configs index.toNat name baseURL token) w)).2 }
      else
        { cm := { cm with Configs := edited cm.Configs index.toNat name baseURL token }
          world := afterSave (edited cm.Configs index.toNat name baseURL token) w
          err := none } := by
  unfold EditConfig
  rw [if_neg h]
  simp only
  rw [Save_ok _ w hw]
  simp only [List.getElem?_modify, hc, edited]
  by_cases ha : c.IsActive = true <;> simp [ha]

theorem SwitchConfig_save_fails (cm : ConfigManager) (w : World) (index : Int)
    (h : ¬ (index < 0 ∨ index ≥ cm.Configs.length))
    (e : Error) (left : Option FileData) (hw : w.writeConfigsResult = .fails e left) :
    SwitchConfig cm w index =
      { cm := { cm with Configs := switched cm.Configs index.toNat }
        world := { w with
          log := w.log ++ [.writeConfigs (savedData (switched cm.Configs index.toNat))]
          configsFile := left }
        err := some e } := by
  unfold SwitchConfig
  rw [if_neg h]
  simp only
  rw [Save_fails _ w e left hw]
  rfl

theorem SwitchConfig_save_ok (cm : ConfigManager) (w : World) (index : Int)
    (h : ¬ (index < 0 ∨ index ≥ cm.Configs.length))
    (hw : w.writeConfigsResult = .ok) (c : Config) (hc : cm.Configs[index.toNat]? = some c) :
    SwitchConfig cm w index =
      { cm := { cm with Configs := switched cm.Configs index.toNat }
        world := (ApplyConfig (some { c with IsActive := true })
          (afterSave (switched cm.Configs index.toNat) w)).1
        err := (ApplyConfig (some { c with IsActive := true })
          (afterSave (switched cm.Configs index.toNat) w)).2 } := by
  unfold SwitchConfig
  rw [if_neg h]
  simp only
  rw [Save_ok _ w hw]
  simp only [List.getElem?_modify, List.getElem?_map, hc, switched]
  simp

theorem activeCount_edited (cs : List Config) (i : Nat) (name baseURL token : String) :
    activeCount (edited cs i name baseURL token) = activeCount cs := by
  induction cs generalizing i with
  | nil => cases i <;> rfl
  | cons c rest ih =>
    cases i with
    | zero => simp [edited, activeCount, List.countP_cons]
    | succ n =>
      have := ih n
      unfold edited activeCount at this
      simp [edited, activeCount, List.countP_cons, this]

theorem activeCount_deleted_le (cs : List Config) (i : Nat) :
    activeCount (cs.take i ++ cs.drop (i + 1)) ≤ activeCount cs := by
  rw [← List.eraseIdx_eq_take_drop_succ]
  exact List.Sublist.countP_le _ (List.eraseIdx_sublist cs i)

theorem activeCount_deleted_active (cs : List Config) (i : Nat) (c : Config)
    (hc : cs[i]? = some c) (ha : c.IsActive = true) :
    activeCount (cs.take i ++ cs.drop (i + 1)) + 1 = activeCount cs := by
  obtain ⟨hlt, hget⟩ := List.getElem?_eq_some.mp hc
  have hsplit : cs = cs.take i ++ c :: cs.drop (i + 1) := by
    rw [← hget, ← List.drop_eq_getElem_cons hlt, List.take_append_drop]
  have hcount : activeCount cs = activeCount (cs.take i ++ c :: cs.drop (i + 1)) :=
    congrArg activeCount hsplit
  rw [hcount]
  simp [activeCount, List.countP_append, List.countP_cons, ha]
  omega

theorem activeCount_add (cs : List Config) (name baseURL token : String) :
    activeCount (cs ++ [{ Name := name, BaseURL := baseURL, Token := token, IsActive := false }]) =
      activeCount cs := by
  simp [activeCount, List.countP_append]

theorem run_preserves (cm : ConfigManager) (w : World) (op : Op)
    (h : activeCount cm.Configs ≤ 1) : activeCount (op.run cm w).cm.Configs ≤ 1 := by
  cases op with
  | add name baseURL token =>
    simp only [Op.run, AddConfig_cm, activeCount_add]
    exact h
  | edit index name baseURL token =>
    simp only [Op.run]
    by_cases hi : index < 0 ∨ index ≥ cm.Configs.length
    · rw [EditConfig_invalid cm w index name baseURL token hi]; exact h
    · rw [EditConfig_cm_valid cm w index name baseURL token hi, activeCount_edited]; exact h
  | switch index =>
    simp only [Op.run]
    by_cases hi : index < 0 ∨ index ≥ cm.Configs.length
    · rw [SwitchConfig_invalid cm w index hi]; exact h
    · rw [SwitchConfig_cm_valid cm w index hi, activeCount_switched _ _ (by omega)]
  | delete index =>
    simp only [Op.run]
    by_cases hi : index < 0 ∨ index ≥ cm.Configs.length
    · rw [DeleteConfig_invalid cm w index hi]; exact h
    · rw [DeleteConfig_cm_valid cm w index hi]
      exact le_trans (activeCount_deleted_le _ _) h

theorem runOps_preserves (cm : ConfigManager) (calls : List (World × Op))
    (h : activeCount cm.Configs ≤ 1) : activeCount (runOps cm calls).Configs ≤ 1 := by
  induction calls generalizing cm with
  | nil => exact h
  | cons c rest ih =>
    obtain ⟨w, op⟩ := c
    simp only [runOps]
    exact ih _ (run_preserves cm w op h)

/-- C10: the single-active invariant over the whole store. From a collection
with at most one active profile, one call of `AddConfig`, `EditConfig`,
`SwitchConfig` or `DeleteConfig`, with any arguments and in any host (so with
any outcome), leaves at most one active profile in memory; so does every run of
such calls; and so every collection reached from the empty one has at most one
active profile. -/
theorem single_active_invariant (cm : ConfigManager) (w : World) (op : Op)
    (h : activeCount cm.Configs ≤ 1) :
    activeCount (op.run cm w).cm.Configs ≤ 1 ∧
    (∀ calls : List (World × Op), activeCount (runOps cm calls).Configs ≤ 1) ∧
    (∀ (path : String) (calls : List (World × Op)),
      activeCount (runOps { Configs := [], configPath := path } calls).Configs ≤ 1) :=
  ⟨run_preserves cm w op h, fun calls => runOps_preserves cm calls h,
    fun _ calls => runOps_preserves _ calls (by simp [activeCount])⟩

/-- The collection of `sampleManager` has at most one active profile, and
deleting its active profile leaves at most one. -/
theorem single_active_invariant_witness :
    activeCount sampleManager.Configs ≤ 1 ∧
    activeCount ((Op.delete 0).run sampleManager sampleWorld).cm.Configs ≤ 1 :=
  ⟨by decide, (single_active_invariant sampleManager sampleWorld (Op.delete 0) (by decide)).1⟩

/-- C7: for a valid index `DeleteConfig` always deletes, the active profile
included. The collection left is the profiles before the index followed by
those after it: one shorter, positions below the index untouched, every later
profile moved down by one. This collection is what gets persisted: the one
system call made is the write of its encoding, the encoding decodes back to
exactly this collection, and when the write succeeds no error is returned and
a fresh `Load` from the file yields this collection. When the deleted profile
was active and the only active one, no profile is active afterwards. -/
theorem DeleteConfig_effect (cm : ConfigManager) (w : World) (index : Int)
    (hvalid : 0 ≤ index ∧ index < cm.Configs.length) :
    (DeleteConfig cm w index).cm.Configs =
      cm.Configs.take index.toNat ++ cm.Configs.drop (index.toNat + 1) ∧
    (DeleteConfig cm w index).cm.Configs.length = cm.Configs.length - 1 ∧
    (∀ j, j < index.toNat → (DeleteConfig cm w index).cm.Configs[j]? = cm.Configs[j]?) ∧
    (∀ j, index.toNat ≤ j → (DeleteConfig cm w index).cm.Configs[j]? = cm.Configs[j + 1]?) ∧
    (DeleteConfig cm w index).world.log =
      w.log ++ [.writeConfigs (savedData (DeleteConfig cm w index).cm.Configs)] ∧
    unmarshalConfigs (savedData (DeleteConfig cm w index).cm.Configs) =
      ((DeleteConfig cm w index).cm.Configs, none) ∧
    (w.writeConfigsResult = .ok →
      (DeleteConfig cm w index).err = none ∧
      (DeleteConfig cm w index).world.configsFile =
        some (savedData (DeleteConfig cm w index).cm.Configs) ∧
      Load { Configs := [], configPath := cm.configPath } (DeleteConfig cm w index).world =
        ({ Configs := cm.Configs.take index.toNat ++ cm.Configs.drop (index.toNat + 1),
           configPath := cm.configPath }, none)) ∧
    (∀ c, cm.Configs[index.toNat]? = some c → c.IsActive = true → activeCount cm.Configs = 1 →
      activeCount (DeleteConfig cm w index).cm.Configs = 0) := by
  have hv : ¬ (index < 0 ∨ index ≥ cm.Configs.length) := by omega
  have hlt : index.toNat < cm.Configs.length := by omega
  have hcm := DeleteConfig_cm_valid cm w index hv
  have herase : (DeleteConfig cm w index).cm.Configs = cm.Configs.eraseIdx index.toNat := by
    rw [hcm, List.eraseIdx_eq_take_drop_succ]
  have hworld : (DeleteConfig cm w index).world =
      (Save { cm with Configs := cm.Configs.take index.toNat ++ cm.Configs.drop (index.toNat + 1) }
        w).1 := by
    unfold DeleteConfig
    rw [if_neg hv]
  have herr : (DeleteConfig cm w index).err =
      (Save { cm with Configs := cm.Configs.take index.toNat ++ cm.Configs.drop (index.toNat + 1) }
        w).2 := by
    unfold DeleteConfig
    rw [if_neg hv]
  refine ⟨hcm, ?_, ?_, ?_, ?_, unmarshalConfigs_savedData _, ?_, ?_⟩
  · rw [herase, List.length_eraseIdx, if_pos hlt]
  · intro j hj
    rw [herase, List.getElem?_eraseIdx, if_pos hj]
  · intro j hj
    rw [herase, List.getElem?_eraseIdx, if_neg (by omega)]
  · rw [hworld, (Save_log _ w).1, hcm]
  · intro hw
    rw [herr, hworld, Save_ok _ w hw, hcm]
    refine ⟨rfl, rfl, ?_⟩
    simp only [Load, afterSave, unmarshalConfigs_savedData]
  · intro c hc ha hone
    have := activeCount_deleted_active cm.Configs index.toNat c hc ha
    rw [hcm]
    omega

/-- Index 0 is valid for `sampleManager`, whose first profile is the only
active one: deleting it leaves no active profile. -/
theorem DeleteConfig_effect_witness :
    ((0 : Int) ≤ 0 ∧ (0 : Int) < sampleManager.Configs.length) ∧
    activeCount (DeleteConfig sampleManager sampleWorld 0).cm.Configs = 0 :=
  ⟨by decide, (DeleteConfig_effect sampleManager sampleWorld 0 (by decide)).2.2.2.2.2.2.2
    sampleConfig rfl rfl (by decide)⟩

/-- C4: for a valid index, when `EditConfig` returns no error (so `Save` and, if
it ran, `ApplyConfig` succeeded), the collection keeps its length, the profile
at the index has the new name, base URL and token and its old `IsActive`, and
every other profile is unchanged. If that profile is active the configuration
target holds the new token and the new base URL under the two owned keys; if
it is not active the target is as before and the only system call made is the
write of `Save`. -/
theorem EditConfig_effect (cm : ConfigManager) (w : World) (index : Int)
    (name baseURL token : String) (hvalid : 0 ≤ index ∧ index < cm.Configs.length)
    (hok : (EditConfig cm w index name baseURL token).err = none) :
    (EditConfig cm w index name baseURL token).cm.Configs.length = cm.Configs.length ∧
    (∀ j, j ≠ index.toNat →
      (EditConfig cm w index name baseURL token).cm.Configs[j]? = cm.Configs[j]?) ∧
    (∀ c, cm.Configs[index.toNat]? = some c →
      (EditConfig cm w index name baseURL token).cm.Configs[index.toNat]? =
        some { Name := name, BaseURL := baseURL, Token := token, IsActive := c.IsActive } ∧
      (c.IsActive = true →
        targetValue (EditConfig cm w index name baseURL token).world authTokenKey =
          some (.str token) ∧
        targetValue (EditConfig cm w index name baseURL token).world baseURLKey =
          some (.str baseURL)) ∧
      (c.IsActive = false →
        target (EditConfig cm w index name baseURL token).world = target w ∧
        (EditConfig cm w index name baseURL token).world.log =
          w.log ++ [.writeConfigs
            (savedData (EditConfig cm w index name baseURL token).cm.Configs)])) := by
  have hv : ¬ (index < 0 ∨ index ≥ cm.Configs.length) := by omega
  have hcm := EditConfig_cm_valid cm w index name baseURL token hv
  have hw : w.writeConfigsResult = .ok := by
    cases hr : w.writeConfigsResult with
    | ok => rfl
    | fails e left =>
      rw [EditConfig_save_fails cm w index name baseURL token hv e left hr] at hok
      simp at hok
  refine ⟨?_, ?_, ?_⟩
  · rw [hcm]; simp [edited]
  · intro j hj
    rw [hcm]
    simp only [edited, List.getElem?_modify]
    have : ¬ index.toNat = j := fun e => hj e.symm
    cases cm.Configs[j]? <;> simp [this]
  · intro c hc
    refine ⟨?_, ?_, ?_⟩
    · rw [hcm]
      simp [edited, List.getElem?_modify, hc]
    · intro ha
      have heq := EditConfig_save_ok cm w index name baseURL token hv hw c hc
      rw [if_pos ha] at heq
      rw [heq] at hok ⊢
      simp only at hok ⊢
      rw [ApplyConfig_ok_world _ _ hok]
      exact targetValue_done _ _
    · intro ha
      have hna : ¬ c.IsActive = true := by simp [ha]
      have heq := EditConfig_save_ok cm w index name baseURL token hv hw c hc
      rw [if_neg hna] at heq
      rw [heq]
      exact ⟨rfl, rfl⟩

/-- Editing the active profile of `sampleManager` on `sampleWorld` succeeds, and
the target then holds the new base URL. -/
theorem EditConfig_effect_witness :
    ((0 : Int) ≤ 0 ∧ (0 : Int) < sampleManager.Configs.length) ∧
    (EditConfig sampleManager sampleWorld 0 "prod" "https://api2.example.com" "tok123").err =
      none ∧
    targetValue
      (EditConfig sampleManager sampleWorld 0 "prod" "https://api2.example.com" "tok123").world
      baseURLKey = some (.str "https://api2.example.com") :=
  ⟨by decide, rfl,
    ((EditConfig_effect sampleManager sampleWorld 0 "prod" "https://api2.example.com" "tok123"
      (by decide) rfl).2.2 sampleConfig rfl).2.1 rfl |>.2⟩

/-- C6: in `SwitchConfig` with a valid index, and in `EditConfig` of an active
profile with a valid index, persistence comes first and the first error wins.
If the write of `Save` fails, its error is returned, the write is the only
system call made and the configuration target is unchanged. If the write
succeeds, the collection file holds the updated collection (it loads back as
such; for a switch the profile at the index, and only it, is marked active),
the error returned is the one of `ApplyConfig` on the updated profile, and the
log shows the write before every call of the activation. -/
theorem persistence_before_activation (cm : ConfigManager) (w : World) (index : Int)
    (name baseURL token : String) (hvalid : 0 ≤ index ∧ index < cm.Configs.length)
    (c : Config) (hc : cm.Configs[index.toNat]? = some c) :
    (∀ e left, w.writeConfigsResult = .fails e left →
      (SwitchConfig cm w index).err = some e ∧
      (SwitchConfig cm w index).world.log =
        w.log ++ [.writeConfigs (savedData (switched cm.Configs index.toNat))] ∧
      target (SwitchConfig cm w index).world = target w) ∧
    (w.writeConfigsResult = .ok →
      (SwitchConfig cm w index).err =
        (ApplyConfig (some { c with IsActive := true })
          (afterSave (switched cm.Configs index.toNat) w)).2 ∧
      (SwitchConfig cm w index).world.configsFile =
        some (savedData (switched cm.Configs index.toNat)) ∧
      unmarshalConfigs (savedData (switched cm.Configs index.toNat)) =
        (switched cm.Configs index.toNat, none) ∧
      (∀ (j : Nat) (d : Config), (switched cm.Configs index.toNat)[j]? = some d →
        (d.IsActive = true ↔ j = index.toNat)) ∧
      ∃ rest, (SwitchConfig cm w index).world.log =
        w.log ++ [.writeConfigs (savedData (switched cm.Configs index.toNat))] ++ rest) ∧
    (c.IsActive = true →
      (∀ e left, w.writeConfigsResult = .fails e left →
        (EditConfig cm w index name baseURL token).err = some e ∧
        (EditConfig cm w index name baseURL token).world.log =
          w.log ++
            [.writeConfigs (savedData (edited cm.Configs index.toNat name baseURL token))] ∧
        target (EditConfig cm w index name baseURL token).world = target w) ∧
      (w.writeConfigsResult = .ok →
        (EditConfig cm w index name baseURL token).err =
          (ApplyConfig
            (some { Name := name, BaseURL := baseURL, Token := token, IsActive := true })
            (afterSave (edited cm.Configs index.toNat name baseURL token) w)).2 ∧
        (EditConfig cm w index name baseURL token).world.configsFile =
          some (savedData (edited cm.Configs index.toNat name baseURL token)) ∧
        unmarshalConfigs (savedData (edited cm.Configs index.toNat name baseURL token)) =
          (edited cm.Configs index.toNat name baseURL token, none) ∧
        ∃ rest, (EditConfig cm w index name baseURL token).world.log =
          w.log ++
            [.writeConfigs (savedData (edited cm.Configs index.toNat name baseURL token))] ++
            rest)) := by
  have hv : ¬ (index < 0 ∨ index ≥ cm.Configs.length) := by omega
  refine ⟨?_, ?_, ?_⟩
  · intro e left hw
    rw [SwitchConfig_save_fails cm w index hv e left hw]
    exact ⟨rfl, rfl, rfl⟩
  · intro hw
    rw [SwitchConfig_save_ok cm w index hv hw c hc]
    obtain ⟨hfile, rest, hlog⟩ := ApplyConfig_frame (some { c with IsActive := true })
      (afterSave (switched cm.Configs index.toNat) w)
    refine ⟨rfl, hfile, unmarshalConfigs_savedData _, ?_, rest, hlog⟩
    intro j d hd
    exact switched_getElem? _ _ _ _ hd
  · intro ha
    refine ⟨?_, ?_⟩
    · intro e left hw
      rw [EditConfig_save_fails cm w index name baseURL token hv e left hw]
      exact ⟨rfl, rfl, rfl⟩
    · intro hw
      rw [EditConfig_save_ok cm w index name baseURL token hv hw c hc, if_pos ha, ha]
      obtain ⟨hfile, rest, hlog⟩ := ApplyConfig_frame
        (some { Name := name, BaseURL := baseURL, Token := token, IsActive := true })
        (afterSave (edited cm.Configs index.toNat name baseURL token) w)
      exact ⟨rfl, hfile, unmarshalConfigs_savedData _, rest, hlog⟩

/-- A switch to the second profile of `sampleManager` on a host whose collection
file cannot be written: the write error comes back and the configuration
target is untouched. -/
theorem persistence_before_activation_witness :
    ((0 : Int) ≤ 1 ∧ (1 : Int) < sampleManager.Configs.length) ∧
    sampleManager.Configs[(1 : Int).toNat]? = some inactiveSample ∧
    readOnlyWorld.writeConfigsResult = .fails (.os 13) none ∧
    (SwitchConfig sampleManager readOnlyWorld 1).err = some (.os 13) ∧
    target (SwitchConfig sampleManager readOnlyWorld 1).world = target readOnlyWorld :=
  ⟨by decide, rfl, rfl,
    ((persistence_before_activation sampleManager readOnlyWorld 1 "" "" "" (by decide)
      inactiveSample rfl).1 (.os 13) none rfl).1,
    ((persistence_before_activation sampleManager readOnlyWorld 1 "" "" "" (by decide)
      inactiveSample rfl).1 (.os 13) none rfl).2.2⟩

/-- Index 1 is valid for `sampleManager`: after the switch exactly one profile
is active. -/
theorem SwitchConfig_single_active_witness :
    ((0 : Int) ≤ 1 ∧ (1 : Int) < sampleManager.Configs.length) ∧
    activeCount (SwitchConfig sampleManager sampleWorld 1).cm.Configs = 1 :=
  ⟨by decide, ((SwitchConfig_single_active sampleManager sampleWorld 1).1 (by decide)).2.2⟩

/-- The index -1 and the index equal to the length of the collection are both
out of bounds for `sampleManager`, and both are rejected. -/
theorem invalid_index_rejected_witness :
    ((-1 : Int) < 0 ∨ (-1 : Int) ≥ sampleManager.Configs.length) ∧
    ((2 : Int) < 0 ∨ (2 : Int) ≥ sampleManager.Configs.length) ∧
    (SwitchConfig sampleManager sampleWorld (-1)).err = some (.msg "invalid config index") ∧
    (DeleteConfig sampleManager sampleWorld 2).cm = sampleManager :=
  ⟨by decide, by decide,
    congrArg Outcome.err (invalid_index_rejected sampleManager sampleWorld (-1) "" "" ""
      (by decide)).2.2,
    congrArg Outcome.cm (invalid_index_rejected sampleManager sampleWorld 2 "" "" ""
      (by decide)).2.1⟩

/-! ## The round trip of `AddConfig` on Go strings -/

namespace Bytes

theorem goString_jsonString (s : GoString) (h : validUTF8 s = true) :
    goString (jsonString s) = s := by
  induction s with
  | nil => rfl
  | cons p rest ih =>
    simp only [validUTF8, List.all_cons, Bool.and_eq_true] at h ih
    cases p with
    | char c =>
      have := ih h.2
      simp only [goString, jsonString, List.map_cons, List.cons.injEq, true_and] at this ⊢
      exact this
    | stray b => simp at h

theorem unmarshal_marshalConfig_valid (c : Config) (h : c.valid = true) :
    unmarshalConfig (marshalConfig c) = (c, none) := by
  simp only [Config.valid, Bool.and_eq_true] at h
  simp [unmarshalConfig, marshalConfig, stringField, boolField, member?, firstError,
    goString_jsonString _ h.1.1, goString_jsonString _ h.1.2, goString_jsonString _ h.2]

theorem unmarshalConfigList_marshal_valid (cs : List Config) (h : ∀ c ∈ cs, c.valid = true) :
    unmarshalConfigList (cs.map marshalConfig) = (cs, none) := by
  induction cs with
  | nil => rfl
  | cons c rest ih =>
    have hc := h c (List.mem_cons_self _ _)
    have hrest := ih (fun d hd => h d (List.mem_cons_of_mem _ hd))
    simp only [List.map_cons, unmarshalConfigList, hrest, unmarshal_marshalConfig_valid c hc,
      firstError]

theorem Save_ok_inv_bytes (cm : ConfigManager) (w : World) (h : (Save cm w).2 = none) :
    Save cm w =
      ({ w with
          log := w.log ++ [.writeConfigs (.json (.arr (cm.Configs.map marshalConfig)))]
          configsFile := some (.json (.arr (cm.Configs.map marshalConfig))) }, none) := by
  unfold Save at h ⊢
  simp only [marshalConfigs, World.record] at h ⊢
  cases hw : w.writeConfigsResult with
  | ok => rfl
  | fails e left => simp [hw] at h

/-- C8 as amended: for every collection whose strings are valid UTF-8 and all
strings `name`, `baseURL`, `token` that are valid UTF-8 (nothing else is asked
of them, and a name may repeat), when `AddConfig` returns no error the
collection in memory is the old one followed by the new profile with
`IsActive` false, and a fresh `Load` from storage returns no error and yields
exactly that collection. -/
theorem AddConfig_roundtrip_validUTF8 (cm : ConfigManager) (w : World)
    (name baseURL token : GoString) (hcm : ∀ c ∈ cm.Configs, c.valid = true)
    (hname : validUTF8 name = true) (hurl : validUTF8 baseURL = true)
    (htoken : validUTF8 token = true) (h : (AddConfig cm w name baseURL token).err = none) :
    (AddConfig cm w name baseURL token).cm.Configs =
      cm.Configs ++ [{ Name := name, BaseURL := baseURL, Token := token, IsActive := false }] ∧
    Load { Configs := [], configPath := cm.configPath } (AddConfig cm w name baseURL token).world =
      ({ Configs := cm.Configs ++
            [{ Name := name, BaseURL := baseURL, Token := token, IsActive := false }],
         configPath := cm.configPath }, none) := by
  refine ⟨rfl, ?_⟩
  have hall : ∀ c ∈ cm.Configs ++
      [({ Name := name, BaseURL := baseURL, Token := token, IsActive := false } : Config)],
      c.valid = true := by
    intro c hc
    rcases List.mem_append.mp hc with hc | hc
    · exact hcm c hc
    · rw [List.mem_singleton] at hc
      rw [hc]
      simp [Config.valid, hname, hurl, htoken]
  have hsave := Save_ok_inv_bytes _ w h
  simp only [AddConfig] at hsave ⊢
  rw [hsave]
  simp only [Load, unmarshalConfigs, unmarshalConfigList_marshal_valid _ hall]

/-- Adding a profile of valid UTF-8 strings to the empty collection on
`sampleWorld` succeeds, and the collection loads back. -/
theorem AddConfig_roundtrip_validUTF8_witness :
    validUTF8 replacedName = true ∧
    (AddConfig emptyManager sampleWorld replacedName replacedName replacedName).err = none ∧
    Load emptyManager
      (AddConfig emptyManager sampleWorld replacedName replacedName replacedName).world =
      ({ Configs := [validProfile], configPath := "configs.json" }, none) :=
  ⟨by decide, rfl,
    (AddConfig_roundtrip_validUTF8 emptyManager sampleWorld replacedName replacedName
      replacedName (by decide) (by decide) (by decide) (by decide) rfl).2⟩

/-- C8 as stated fails: the strings are not validated, and a name that is not
valid UTF-8 does not come back. Adding the name of the bytes `a`, `0xff`, `b`
to the empty collection returns no error and leaves that name in memory, but a
fresh `Load` from storage yields the name `a`, U+FFFD, `b`, which is another
string. -/
theorem AddConfig_roundtrip_stray_byte_fails :
    (AddConfig emptyManager sampleWorld strayName [] []).err = none ∧
    (AddConfig emptyManager sampleWorld strayName [] []).cm.Configs = [strayProfile] ∧
    Load emptyManager (AddConfig emptyManager sampleWorld strayName [] []).world =
      ({ Configs := [coercedProfile], configPath := "configs.json" }, none) ∧
    ¬ (Load emptyManager (AddConfig emptyManager sampleWorld strayName [] []).world =
      ({ Configs := emptyManager.Configs ++ [strayProfile], configPath := "configs.json" },
        none)) := by
  have hload : Load emptyManager (AddConfig emptyManager sampleWorld strayName [] []).world =
      ({ Configs := [coercedProfile], configPath := "configs.json" }, none) := rfl
  refine ⟨rfl, rfl, hload, ?_⟩
  rw [hload]
  decide

end Bytes

end ConfigSwitcher
